import Mathlib

/-!
Verification of the attribute-reconciliation core of the Blaze templating
fragment (`AttributeHandler`, `ElementAttributesUpdater` and the concrete
handler strategies).  The JavaScript source is embedded shallowly: DOM
elements become an explicit record of their observable attribute state,
JavaScript values flowing through the reconciler become the `JSVal` type
(string, `null`, or an opaque non-string object), and every external DOM
mutation performed by a handler is logged in a `Mut` trace so that claims
about mutation counts and ordering can be stated.  Exceptions thrown by the
JavaScript code are modelled with an `Option String` error field; state
mutated before a throw is kept, as in JavaScript.
-/

namespace Blaze

/-- A JavaScript value as it flows through the reconciler: `null`, a plain
string, or some other (non-string, non-null) object identified by a tag.
Strict equality `===` is `DecidableEq` on this type (object tags model
reference identity). -/
inductive JSVal where
  | vNull : JSVal
  | vStr : String → JSVal
  | vObj : Nat → JSVal
deriving DecidableEq, Repr

/-- The string the DOM produces when coercing a value in `setAttribute`
position (`String(value)` semantics; an object stringifies to
"[object Object]").  Only applied where the source passes the value to a
DOM call that stringifies. -/
def JSVal.toDOMString : JSVal → String
  | .vNull => "null"
  | .vStr s => s
  | .vObj _ => "[object Object]"

/-- Coercion used by the `value` IDL attribute of input/textarea controls,
which treats `null` as the empty string (legacy TreatNullAs behaviour). -/
def JSVal.toValueProp : JSVal → String
  | .vNull => ""
  | .vStr s => s
  | .vObj _ => "[object Object]"

/-- JavaScript truthiness of a reconciler value. -/
def JSVal.truthy : JSVal → Bool
  | .vNull => false
  | .vStr s => s ≠ ""
  | .vObj _ => true

def JSVal.isString : JSVal → Bool
  | .vStr _ => true
  | _ => false

/-- The value is `null` or a plain string — the input discipline the
source documents for `update` ("values are strings"). -/
def JSVal.isStringOrNull : JSVal → Bool
  | .vNull => true
  | .vStr _ => true
  | .vObj _ => false

/-- One external DOM mutation call performed by a handler. -/
inductive Mut where
  | setAttr (name val : String)
  | removeAttr (name : String)
  | setAttrNS (ns name val : String)
  | removeAttrNS (ns name : String)
  | setClassNameProp (val : String)
  | setBoolProp (name : String) (b : Bool)
  | setValueProp (val : String)
deriving DecidableEq, Repr

/-- Association-list lookup keyed by strings (models JS object property
lookup: at most one entry per key is ever created). -/
def alookup {α : Type} : List (String × α) → String → Option α
  | [], _ => none
  | (k', v) :: rest, k => if k' = k then some v else alookup rest k

/-- Overwrite the entry for `k` in place (JS property assignment keeps the
key's position); append if absent. -/
def aset {α : Type} : List (String × α) → String → α → List (String × α)
  | [], k, v => [(k, v)]
  | (k', v') :: rest, k, v =>
    if k' = k then (k, v) :: rest else (k', v') :: aset rest k v

/-- Delete the entry for `k` (JS `delete obj[k]` / `removeAttribute`). -/
def aremove {α : Type} : List (String × α) → String → List (String × α)
  | [], _ => []
  | (k', v) :: rest, k => if k' = k then aremove rest k else (k', v) :: aremove rest k

/-- The observable state of one DOM element, as far as the embedded code
touches it.  `tagName` and `ownerSVG` are immutable identity; `attrs` holds
the plain attributes (the `class` attribute doubles as the reflected
`className` property, as in the DOM); `nsAttrs` holds xlink-namespaced
attributes; `props` the boolean-reflected properties; `value` the live
value property; `focused` whether the element is `document.activeElement`;
`selectFocused` whether, for an OPTION, its containing SELECT is the active
element (`false` when it has no SELECT ancestor). -/
structure Elem where
  tagName : String
  ownerSVG : Bool
  attrs : List (String × String)
  nsAttrs : List (String × String)
  props : List (String × Bool)
  value : String
  focused : Bool
  selectFocused : Bool
deriving DecidableEq, Repr

def Elem.setAttribute (e : Elem) (n v : String) : Elem :=
  { e with attrs := aset e.attrs n v }

def Elem.removeAttribute (e : Elem) (n : String) : Elem :=
  { e with attrs := aremove e.attrs n }

/-- `element.className` — reflected from the `class` content attribute
(empty string when the attribute is absent).  For SVG elements this models
`element.className.baseVal`, which reflects the same attribute. -/
def Elem.className (e : Elem) : String := (alookup e.attrs "class").getD ""

/-- `element.className = v` writes the reflected `class` attribute. -/
def Elem.setClassName (e : Elem) (v : String) : Elem := e.setAttribute "class" v

-- ---------------------------------------------------------------------
-- helpers from the source (`_arrayCompact`, `_arrayContains`,
-- `_arrayWithout`); on string arrays "falsy" means the empty string.
-- ---------------------------------------------------------------------

def _arrayCompact (a : List String) : List String := a.filter (fun s => s ≠ "")

def _arrayContains (a : List String) (x : String) : Bool := a.contains x

def _arrayWithout (a : List String) (x : String) : List String :=
  a.filter (fun y => y ≠ x)

/-- JavaScript `string.split(' ')` on the character list: split at every
single space, keeping empty segments (`"".split(' ')` is `[""]`,
`"a  b".split(' ')` is `["a","","b"]`). -/
def splitOnSpaceAux : List Char → List Char → List String
  | [], acc => [String.mk acc.reverse]
  | c :: cs, acc =>
    if c = ' ' then String.mk acc.reverse :: splitOnSpaceAux cs []
    else splitOnSpaceAux cs (c :: acc)

/-- JavaScript `s.split(' ')`. -/
def splitOnSpace (s : String) : List String := splitOnSpaceAux s.data []

/-- The whitespace-token reading of the element's live class string. -/
def Elem.classTokens (e : Elem) : List String := _arrayCompact (splitOnSpace e.className)

/-- `value ? _arrayCompact(value.split(' ')) : []` from `BaseClassHandler`:
a falsy value (null or empty string) yields no tokens, a string is split,
and a non-string truthy value has no `.split` method — a `TypeError`. -/
def splitTokens : JSVal → Except String (List String)
  | .vNull => .ok []
  | .vStr s => .ok (if s ≠ "" then _arrayCompact (splitOnSpace s) else [])
  | .vObj _ => .error "TypeError: value.split is not a function"

-- ---------------------------------------------------------------------
-- handler strategies
-- ---------------------------------------------------------------------

/-- The strategy tag of a handler, as selected by `makeAttributeHandler`
(`cls`/`svgCls` are `ClassHandler`/`SVGClassHandler`, `boolean` is
`BooleanHandler`, `valueRef` is `ValueHandler`, `xlink` is `XlinkHandler`,
`plain` the base `AttributeHandler`). -/
inductive HandlerKind where
  | plain
  | cls
  | svgCls
  | boolean
  | valueRef
  | xlink
deriving DecidableEq, Repr

/-- An `AttributeHandler` instance: its strategy, its `this.name`, and its
`this.value` (the reconciler's remembered last-applied value). -/
structure Handler where
  kind : HandlerKind
  name : String
  value : JSVal
deriving DecidableEq, Repr

/-- `AttributeHandler.prototype.update`: plain `setAttribute`/
`removeAttribute` reflection.  `setAttribute` stringifies its argument. -/
def AttributeHandler.update (name : String) (element : Elem) (oldValue value : JSVal) :
    Except String (Elem × List Mut) :=
  if value = JSVal.vNull then
    if oldValue ≠ JSVal.vNull then
      .ok (element.removeAttribute name, [Mut.removeAttr name])
    else
      .ok (element, [])
  else
    .ok (element.setAttribute name value.toDOMString, [Mut.setAttr name value.toDOMString])

/-- `BaseClassHandler.prototype.update`, parametrised by the accessor
methods a subclass may or may not define.  The missing-accessor check runs
first; then `oldValue` and `value` are tokenised, the live token list is
read through the getter, tokens of `oldValue` absent from `value` are
removed, tokens of `value` new to both `oldValue` and the live list are
appended, and the joined result is written through the setter. -/
def BaseClassHandler.update (getCurrentValue : Option (Elem → String))
    (setValue : Option (String → Elem → Elem × Mut))
    (element : Elem) (oldValue value : JSVal) : Except String (Elem × List Mut) :=
  match getCurrentValue, setValue with
  | some getV, some setV => do
    let oldClasses ← splitTokens oldValue
    let newClasses ← splitTokens value
    let classes := _arrayCompact (splitOnSpace (getV element))
    let classes := oldClasses.foldl
      (fun cs c => if _arrayContains newClasses c then cs else _arrayWithout cs c) classes
    let classes := newClasses.foldl
      (fun cs c =>
        if !(_arrayContains oldClasses c) && !(_arrayContains cs c) then cs ++ [c] else cs)
      classes
    let (e', m) := setV (String.intercalate " " classes) element
    .ok (e', [m])
  | _, _ => .error "Missing methods in subclass of BaseClassHandler"

/-- `ClassHandler.getCurrentValue`: `element.className`. -/
def ClassHandler.getCurrentValue (element : Elem) : String := element.className

/-- `ClassHandler.setValue`: `element.className = className`. -/
def ClassHandler.setValue (className : String) (element : Elem) : Elem × Mut :=
  (element.setClassName className, Mut.setClassNameProp className)

/-- `SVGClassHandler.getCurrentValue`: `element.className.baseVal`. -/
def SVGClassHandler.getCurrentValue (element : Elem) : String := element.className

/-- `SVGClassHandler.setValue`: `element.setAttribute('class', className)`. -/
def SVGClassHandler.setValue (className : String) (element : Elem) : Elem × Mut :=
  (element.setAttribute "class" className, Mut.setAttr "class" className)

/-- `BooleanHandler.prototype.focused`: INPUT elements report their own
focus; OPTION elements report the focus of their containing SELECT (false
with no SELECT ancestor); any other element kind throws. -/
def BooleanHandler.focused (element : Elem) : Except String Bool :=
  if element.tagName = "INPUT" then .ok element.focused
  else if element.tagName = "OPTION" then .ok element.selectFocused
  else .error "Expected INPUT or OPTION element"

/-- `BooleanHandler.prototype.update`: suppressed entirely while the
control is focused; otherwise reflects presence/absence of the value into
the boolean element property (loose `== null` comparison — in this model
only `null` is loosely null). -/
def BooleanHandler.update (name : String) (element : Elem) (oldValue value : JSVal) :
    Except String (Elem × List Mut) := do
  let f ← BooleanHandler.focused element
  if f then
    .ok (element, [])
  else
    if value = JSVal.vNull then
      if oldValue ≠ JSVal.vNull then
        .ok ({ element with props := aset element.props name false }, [Mut.setBoolProp name false])
      else
        .ok (element, [])
    else
      .ok ({ element with props := aset element.props name true }, [Mut.setBoolProp name true])

/-- `ValueHandler.prototype.update`: a no-op while the control is the
active element; otherwise `element.value = value` (with the DOM's legacy
null-to-empty coercion on the value property). -/
def ValueHandler.update (element : Elem) (oldValue value : JSVal) :
    Except String (Elem × List Mut) :=
  if element.focused then
    .ok (element, [])
  else
    .ok ({ element with value := value.toValueProp }, [Mut.setValueProp value.toValueProp])

def xlinkNS : String := "http://www.w3.org/1999/xlink"

/-- `XlinkHandler.prototype.update`: namespaced set/remove.  Note the
source sets with `this.value` (the handler's stored value), not the
`value` parameter — at every call site the two coincide because the
updater assigns `handler.value = value` immediately before calling. -/
def XlinkHandler.update (name : String) (thisValue : JSVal) (element : Elem)
    (oldValue value : JSVal) : Except String (Elem × List Mut) :=
  if value = JSVal.vNull then
    if oldValue ≠ JSVal.vNull then
      .ok ({ element with nsAttrs := aremove element.nsAttrs name },
           [Mut.removeAttrNS xlinkNS name])
    else
      .ok (element, [])
  else
    .ok ({ element with nsAttrs := aset element.nsAttrs name thisValue.toDOMString },
         [Mut.setAttrNS xlinkNS name thisValue.toDOMString])

/-- `isSVGElement`: `'ownerSVGElement' in elem`. -/
def isSVGElement (e : Elem) : Bool := e.ownerSVG

/-- `makeAttributeHandler`: the strategy dispatch table, a pure function
of the element kind and attribute name.  For `xlink:`-prefixed names the
handler's `this.name` is the name with the prefix stripped. -/
def makeAttributeHandler (elem : Elem) (name : String) (value : JSVal) : Handler :=
  if name = "class" then
    if isSVGElement elem then ⟨HandlerKind.svgCls, name, value⟩
    else ⟨HandlerKind.cls, name, value⟩
  else if (elem.tagName = "OPTION" ∧ name = "selected") ∨
          (elem.tagName = "INPUT" ∧ name = "checked") then
    ⟨HandlerKind.boolean, name, value⟩
  else if (elem.tagName = "TEXTAREA" ∨ elem.tagName = "INPUT") ∧ name = "value" then
    ⟨HandlerKind.valueRef, name, value⟩
  else if name.data.take 6 = "xlink:".data then
    ⟨HandlerKind.xlink, String.mk (name.data.drop 6), value⟩
  else
    ⟨HandlerKind.plain, name, value⟩

/-- Dispatch a handler's `update` method by its strategy tag.  The handler
record passed here carries the `this.value` current at call time. -/
def Handler.update (h : Handler) (element : Elem) (oldValue value : JSVal) :
    Except String (Elem × List Mut) :=
  match h.kind with
  | .plain => AttributeHandler.update h.name element oldValue value
  | .cls =>
    BaseClassHandler.update (some ClassHandler.getCurrentValue)
      (some ClassHandler.setValue) element oldValue value
  | .svgCls =>
    BaseClassHandler.update (some SVGClassHandler.getCurrentValue)
      (some SVGClassHandler.setValue) element oldValue value
  | .boolean => BooleanHandler.update h.name element oldValue value
  | .valueRef => ValueHandler.update element oldValue value
  | .xlink => XlinkHandler.update h.name h.value element oldValue value

-- ---------------------------------------------------------------------
-- ElementAttributesUpdater
-- ---------------------------------------------------------------------

/-- The desired attribute dictionary passed to `update`, in the iteration
order of its keys. -/
abbrev AttrMap := List (String × JSVal)

/-- The updater's handler table, in key insertion order (JS `for..in`
order for non-index string keys). -/
abbrev Handlers := List (String × Handler)

/-- `newAttrs.hasOwnProperty(k)`. -/
def keysContain (m : AttrMap) (k : String) : Bool := m.any (fun p => p.1 = k)

/-- Outcome of the removal phase of `ElementAttributesUpdater.update`
(the `for (var k in handlers)` loop). -/
structure Phase1Out where
  handlers : Handlers
  elem : Elem
  muts : List Mut
  calls : List (String × JSVal × JSVal)
  err : Option String
deriving DecidableEq, Repr

/-- The removal phase: every tracked attribute name that is not a key of
`newAttrs` has its handler invoked with `(oldValue, null)` (after
`handler.value = null`) and its entry discarded.  A throw from a handler
propagates, keeping the mutations made so far (the throwing handler's
entry, already nulled, survives because the delete is not reached). -/
def updateRemovePhase (newAttrs : AttrMap) : Handlers → Elem → Phase1Out
  | [], e => ⟨[], e, [], [], none⟩
  | (k, h) :: rest, e =>
    if keysContain newAttrs k then
      let o := updateRemovePhase newAttrs rest e
      ⟨(k, h) :: o.handlers, o.elem, o.muts, o.calls, o.err⟩
    else
      let oldValue := h.value
      let h' := { h with value := JSVal.vNull }
      match Handler.update h' e oldValue JSVal.vNull with
      | .ok (e', ms) =>
        let o := updateRemovePhase newAttrs rest e'
        ⟨o.handlers, o.elem, ms ++ o.muts, (k, oldValue, JSVal.vNull) :: o.calls, o.err⟩
      | .error msg =>
        ⟨(k, h') :: rest, e, [], [(k, oldValue, JSVal.vNull)], some msg⟩

/-- Outcome of one iteration of the addition phase, and of the whole
phase.  `reg` is the function-scoped `var oldValue` register: declared
without an initializer, it keeps its value from the previous iteration
(`none` models the initial `undefined`). -/
structure StepOut where
  handlers : Handlers
  reg : Option JSVal
  elem : Elem
  muts : List Mut
  calls : List (String × JSVal × JSVal)
  ctors : List String
  err : Option String
deriving DecidableEq, Repr

/-- One iteration of the `for (var k in newAttrs)` loop.  An untracked key
with a non-null value constructs a handler (logged in `ctors`), installs
it, and updates with `oldValue = null`.  An untracked key with a null
value leaves `handler === null`; the stale `oldValue` register then decides
between skipping (when it holds `null`) and the `handler.value = value`
TypeError.  A tracked key is updated only when its remembered value
differs, and its entry is deleted after a null update. -/
def addStep (hs : Handlers) (reg : Option JSVal) (k : String) (value : JSVal) (e : Elem) :
    StepOut :=
  match alookup hs k with
  | none =>
    if value = JSVal.vNull then
      if reg = some JSVal.vNull then
        ⟨hs, reg, e, [], [], [], none⟩
      else
        ⟨hs, reg, e, [], [], [], some "TypeError: cannot set property value of null"⟩
    else
      let handler := makeAttributeHandler e k value
      let hs' := hs ++ [(k, handler)]
      match Handler.update handler e JSVal.vNull value with
      | .ok (e', ms) =>
        ⟨hs', some JSVal.vNull, e', ms, [(k, JSVal.vNull, value)], [k], none⟩
      | .error msg =>
        ⟨hs', some JSVal.vNull, e, [], [(k, JSVal.vNull, value)], [k], some msg⟩
  | some handler =>
    let oldValue := handler.value
    if oldValue ≠ value then
      let handler' := { handler with value := value }
      let hs' := aset hs k handler'
      match Handler.update handler' e oldValue value with
      | .ok (e', ms) =>
        let hs'' := if value = JSVal.vNull then aremove hs' k else hs'
        ⟨hs'', some oldValue, e', ms, [(k, oldValue, value)], [], none⟩
      | .error msg =>
        ⟨hs', some oldValue, e, [], [(k, oldValue, value)], [], some msg⟩
    else
      ⟨hs, some oldValue, e, [], [], [], none⟩

structure Phase2Out where
  handlers : Handlers
  elem : Elem
  muts : List Mut
  calls : List (String × JSVal × JSVal)
  ctors : List String
  err : Option String
deriving DecidableEq, Repr

/-- The addition phase: `addStep` per key, stopping at the first throw
(whose partial state is kept). -/
def updateAddPhase : Handlers → Option JSVal → AttrMap → Elem → Phase2Out
  | hs, _, [], e => ⟨hs, e, [], [], [], none⟩
  | hs, reg, (k, v) :: rest, e =>
    let s := addStep hs reg k v e
    match s.err with
    | some msg => ⟨s.handlers, s.elem, s.muts, s.calls, s.ctors, some msg⟩
    | none =>
      let o := updateAddPhase s.handlers s.reg rest s.elem
      ⟨o.handlers, o.elem, s.muts ++ o.muts, s.calls ++ o.calls, s.ctors ++ o.ctors, o.err⟩

/-- An `ElementAttributesUpdater` is its handler table (the bound element
is passed explicitly at each update in this embedding). -/
structure ElementAttributesUpdater where
  handlers : Handlers
deriving DecidableEq, Repr

/-- `ElementAttributesUpdater.prototype.update(newAttrs)`: the removal
phase over the tracked handlers, then the addition phase over `newAttrs`.
The result records the final handler table, the final element state, the
ordered external mutation trace, the ordered handler-invocation trace
`(name, oldValue, value)`, the names for which `makeAttributeHandler` ran,
and the exception, if one was thrown. -/
structure UpdResult where
  handlers : Handlers
  elem : Elem
  muts : List Mut
  calls : List (String × JSVal × JSVal)
  ctors : List String
  err : Option String
deriving DecidableEq, Repr

def ElementAttributesUpdater.update (u : ElementAttributesUpdater) (elem : Elem)
    (newAttrs : AttrMap) : UpdResult :=
  let p1 := updateRemovePhase newAttrs u.handlers elem
  match p1.err with
  | some msg => ⟨p1.handlers, p1.elem, p1.muts, p1.calls, [], some msg⟩
  | none =>
    let p2 := updateAddPhase p1.handlers none newAttrs p1.elem
    ⟨p2.handlers, p2.elem, p1.muts ++ p2.muts, p1.calls ++ p2.calls, p2.ctors, p2.err⟩

-- ---------------------------------------------------------------------
-- well-formedness of a handler table, and auxiliary notions for the
-- claims
-- ---------------------------------------------------------------------

/-- The strategy tag `makeAttributeHandler` selects for this element and
attribute name (independent of the value). -/
def handlerKind (e : Elem) (k : String) : HandlerKind :=
  (makeAttributeHandler e k JSVal.vNull).kind

/-- The `this.name` `makeAttributeHandler` gives the handler for this
element and attribute name. -/
def handlerName (e : Elem) (k : String) : String :=
  (makeAttributeHandler e k JSVal.vNull).name

/-- A handler entry is well formed for its element and key when it is the
handler `makeAttributeHandler` would build for that element and key and
its remembered value is a string — exactly the states the updater itself
creates when fed string-valued dictionaries. -/
def WFHandler (e : Elem) (k : String) (h : Handler) : Prop :=
  h.kind = handlerKind e k ∧ h.name = handlerName e k ∧ h.value.isString = true

/-- A well-formed handler table: distinct keys, each entry well formed. -/
def WFHandlers (e : Elem) (hs : Handlers) : Prop :=
  (hs.map Prod.fst).Nodup ∧ ∀ p ∈ hs, WFHandler e p.1 p.2

instance (e : Elem) (k : String) (h : Handler) : Decidable (WFHandler e k h) := by
  unfold WFHandler
  infer_instance

instance (e : Elem) (hs : Handlers) : Decidable (WFHandlers e hs) := by
  unfold WFHandlers
  infer_instance

/-- Two element states with the same immutable identity and focus state
(the parts of an element no handler update can change). -/
def sameShape (e e' : Elem) : Prop :=
  e'.tagName = e.tagName ∧ e'.ownerSVG = e.ownerSVG ∧
  e'.focused = e.focused ∧ e'.selectFocused = e.selectFocused

/-- A mutation that removes state (attribute removal calls). -/
def isRemovalMut : Mut → Bool
  | .removeAttr _ => true
  | .removeAttrNS _ _ => true
  | _ => false

/-- Every removal mutation precedes every non-removal mutation. -/
def removalsFirst (l : List Mut) : Bool :=
  (l.dropWhile isRemovalMut).all (fun m => !isRemovalMut m)

-- concrete fixtures used by the per-claim theorems --------------------

/-- A plain (non-SVG, non-form) element with the given attributes. -/
def divElem (attrs : List (String × String)) : Elem :=
  ⟨"DIV", false, attrs, [], [], "", false, false⟩

/-- C1 run: tracked `class="a"`, live class `"a b"` ("b" added
externally), update to `class="a c"`. -/
def c1res : UpdResult :=
  (⟨[("class", ⟨HandlerKind.cls, "class", JSVal.vStr "a"⟩)]⟩ : ElementAttributesUpdater).update
    (divElem [("class", "a b")]) [("class", JSVal.vStr "a c")]

/-- C2 run: tracked `class="a b"`, arbitrary live class string `cur`,
update to `class="b"`. -/
def c2res (cur : String) : UpdResult :=
  (⟨[("class", ⟨HandlerKind.cls, "class", JSVal.vStr "a b"⟩)]⟩ : ElementAttributesUpdater).update
    (divElem [("class", cur)]) [("class", JSVal.vStr "b")]

/-- C4 run: fresh updater on a plain element,
`update({id: "a", class: "foo", disabled: null})`. -/
def c4res : UpdResult :=
  (⟨[]⟩ : ElementAttributesUpdater).update (divElem [])
    [("id", JSVal.vStr "a"), ("class", JSVal.vStr "foo"), ("disabled", JSVal.vNull)]

/-- A focused INPUT control with empty live value. -/
def inputFocused : Elem := ⟨"INPUT", false, [], [], [], "", true, false⟩

/-- C5 first call: `update({value: "x"})` on the focused control. -/
def c5r1 : UpdResult :=
  (⟨[]⟩ : ElementAttributesUpdater).update inputFocused [("value", JSVal.vStr "x")]

/-- C5: the control loses focus (external event between the calls). -/
def c5e1 : Elem := { c5r1.elem with focused := false }

/-- C5 second call: `update({value: "x"})` again, now unfocused. -/
def c5r2 : UpdResult :=
  (⟨c5r1.handlers⟩ : ElementAttributesUpdater).update c5e1 [("value", JSVal.vStr "x")]

/-- C5 third call: `update({value: "y"})`, a genuinely changed value. -/
def c5r3 : UpdResult :=
  (⟨c5r2.handlers⟩ : ElementAttributesUpdater).update c5r2.elem [("value", JSVal.vStr "y")]

/-- C7 run: a desired value that is neither a string nor null (a plain
object) for an ordinary attribute. -/
def c7res (i : Nat) : UpdResult :=
  (⟨[]⟩ : ElementAttributesUpdater).update (divElem []) [("data-x", JSVal.vObj i)]

/-- C9 run: `a` and `b` tracked; the map updates `b` and explicitly nulls
`a`, in that iteration order. -/
def c9res : UpdResult :=
  (⟨[("a", ⟨HandlerKind.plain, "a", JSVal.vStr "1"⟩),
     ("b", ⟨HandlerKind.plain, "b", JSVal.vStr "2"⟩)]⟩ : ElementAttributesUpdater).update
    (divElem [("a", "1"), ("b", "2")]) [("b", JSVal.vStr "3"), ("a", JSVal.vNull)]

/-- C6 counterexample, first call: fresh updater on a plain element,
`update({class: "foo"})`. -/
def c6r1 : UpdResult :=
  (⟨[]⟩ : ElementAttributesUpdater).update (divElem []) [("class", JSVal.vStr "foo")]

/-- C6 counterexample, second call: `update({})` on the result. -/
def c6r2 : UpdResult :=
  (⟨c6r1.handlers⟩ : ElementAttributesUpdater).update c6r1.elem []

/-- C6 amended-claim concrete run, first call: fresh updater,
`update({id: "a", "xlink:href": "u"})` (one plain and one xlink-namespaced
attribute). -/
def c6w1 : UpdResult :=
  (⟨[]⟩ : ElementAttributesUpdater).update (divElem [])
    [("id", JSVal.vStr "a"), ("xlink:href", JSVal.vStr "u")]

/-- C6 amended-claim concrete run, second call: `update({})`. -/
def c6w2 : UpdResult :=
  (⟨c6w1.handlers⟩ : ElementAttributesUpdater).update c6w1.elem []

-- ---------------------------------------------------------------------
-- association-list lemmas
-- ---------------------------------------------------------------------

theorem alookup_mem {α : Type} {l : List (String × α)} {k : String} {v : α}
    (h : alookup l k = some v) : (k, v) ∈ l := by
  induction l with
  | nil => simp [alookup] at h
  | cons p rest ih =>
    obtain ⟨k', v'⟩ := p
    by_cases hk : k' = k
    · subst hk
      simp [alookup] at h
      simp [h]
    · simp [alookup, hk] at h
      exact List.mem_cons_of_mem _ (ih h)

theorem alookup_eq_none_iff {α : Type} {l : List (String × α)} {k : String} :
    alookup l k = none ↔ k ∉ l.map Prod.fst := by
  induction l with
  | nil => simp [alookup]
  | cons p rest ih =>
    obtain ⟨k', v'⟩ := p
    by_cases hk : k' = k
    · subst hk
      simp [alookup]
    · simp [alookup, hk, ih, Ne.symm hk]

theorem alookup_ne_none_of_mem {α : Type} {l : List (String × α)} {p : String × α}
    (h : p ∈ l) : alookup l p.1 ≠ none := by
  rw [Ne, alookup_eq_none_iff]
  intro hn
  exact hn (List.mem_map_of_mem Prod.fst h)

theorem alookup_isSome_iff {α : Type} {l : List (String × α)} {k : String} :
    (∃ v, alookup l k = some v) ↔ k ∈ l.map Prod.fst := by
  constructor
  · rintro ⟨v, hv⟩
    exact List.mem_map_of_mem Prod.fst (alookup_mem hv)
  · intro hk
    cases hv : alookup l k with
    | none => exact absurd (alookup_eq_none_iff.mp hv) (by simpa using hk)
    | some v => exact ⟨v, rfl⟩

theorem alookup_of_mem_nodup {α : Type} {l : List (String × α)} {k : String} {v : α}
    (hn : (l.map Prod.fst).Nodup) (h : (k, v) ∈ l) : alookup l k = some v := by
  induction l with
  | nil => simp at h
  | cons p rest ih =>
    obtain ⟨k', v'⟩ := p
    simp only [List.map_cons, List.nodup_cons] at hn
    rcases List.mem_cons.mp h with heq | hmem
    · injection heq with h1 h2
      subst h1; subst h2
      simp [alookup]
    · have hk : k' ≠ k := by
        rintro rfl
        exact hn.1 (List.mem_map_of_mem Prod.fst hmem)
      simp [alookup, hk, ih hn.2 hmem]

theorem aset_eq_append {α : Type} {l : List (String × α)} {k : String} (v : α)
    (h : alookup l k = none) : aset l k v = l ++ [(k, v)] := by
  induction l with
  | nil => simp [aset]
  | cons p rest ih =>
    obtain ⟨k', v'⟩ := p
    by_cases hk : k' = k
    · subst hk; simp [alookup] at h
    · simp only [alookup, if_neg hk] at h
      simp [aset, hk, ih h]

theorem alookup_aset_self {α : Type} (l : List (String × α)) (k : String) (v : α) :
    alookup (aset l k v) k = some v := by
  induction l with
  | nil => simp [aset, alookup]
  | cons p rest ih =>
    obtain ⟨k', v'⟩ := p
    by_cases hk : k' = k
    · subst hk; simp [aset, alookup]
    · simp [aset, hk, alookup, ih]

theorem alookup_aset_ne {α : Type} (l : List (String × α)) {k k' : String} (v : α)
    (h : k' ≠ k) : alookup (aset l k v) k' = alookup l k' := by
  induction l with
  | nil => simp [aset, alookup, Ne.symm h]
  | cons p rest ih =>
    obtain ⟨k₀, v₀⟩ := p
    by_cases hk : k₀ = k
    · subst hk
      simp [aset, alookup, Ne.symm h]
    · simp [aset, hk, alookup, ih]

theorem alookup_aremove_ne {α : Type} (l : List (String × α)) {k k' : String}
    (h : k' ≠ k) : alookup (aremove l k) k' = alookup l k' := by
  induction l with
  | nil => simp [aremove]
  | cons p rest ih =>
    obtain ⟨k₀, v₀⟩ := p
    by_cases hk : k₀ = k
    · subst hk
      simp [aremove, alookup, Ne.symm h, ih]
    · simp [aremove, hk, alookup, ih]

theorem alookup_aremove_self {α : Type} (l : List (String × α)) (k : String) :
    alookup (aremove l k) k = none := by
  induction l with
  | nil => simp [aremove, alookup]
  | cons p rest ih =>
    obtain ⟨k₀, v₀⟩ := p
    by_cases hk : k₀ = k
    · subst hk
      simp [aremove, ih]
    · simp [aremove, hk, alookup, ih]

theorem mem_aremove {α : Type} {l : List (String × α)} {k : String} {p : String × α}
    (h : p ∈ aremove l k) : p ∈ l := by
  induction l with
  | nil => simp [aremove] at h
  | cons q rest ih =>
    obtain ⟨k₀, v₀⟩ := q
    by_cases hk : k₀ = k
    · subst hk
      simp only [aremove, if_pos rfl] at h
      exact List.mem_cons_of_mem _ (ih h)
    · simp only [aremove, if_neg hk, List.mem_cons] at h
      rcases h with rfl | h
      · exact List.mem_cons_self _ _
      · exact List.mem_cons_of_mem _ (ih h)

theorem alookup_append_left {α : Type} {l₁ : List (String × α)} (l₂ : List (String × α))
    {k : String} {v : α} (h : alookup l₁ k = some v) : alookup (l₁ ++ l₂) k = some v := by
  induction l₁ with
  | nil => simp [alookup] at h
  | cons p rest ih =>
    obtain ⟨k', v'⟩ := p
    by_cases hk : k' = k
    · subst hk
      simp only [alookup, if_pos rfl] at h ⊢
      exact h
    · simp only [alookup, if_neg hk] at h ⊢
      exact ih h

theorem alookup_append_right {α : Type} {l₁ : List (String × α)} (l₂ : List (String × α))
    {k : String} (h : alookup l₁ k = none) : alookup (l₁ ++ l₂) k = alookup l₂ k := by
  induction l₁ with
  | nil => simp
  | cons p rest ih =>
    obtain ⟨k', v'⟩ := p
    by_cases hk : k' = k
    · subst hk; simp [alookup] at h
    · simp only [alookup, if_neg hk] at h
      simp only [List.cons_append, alookup, if_neg hk]
      exact ih h

theorem alookup_append_none {α : Type} {l₁ l₂ : List (String × α)} {k : String}
    (h : alookup (l₁ ++ l₂) k = none) : alookup l₁ k = none := by
  rw [alookup_eq_none_iff] at h ⊢
  intro hk
  exact h (by simpa using Or.inl hk)

theorem keysContain_iff {M : AttrMap} {k : String} :
    keysContain M k = true ↔ k ∈ M.map Prod.fst := by
  simp only [keysContain, List.any_eq_true, decide_eq_true_eq, List.mem_map]

theorem keysContain_eq_false {M : AttrMap} {k : String} :
    keysContain M k = false ↔ k ∉ M.map Prod.fst := by
  constructor
  · intro h hk
    rw [← keysContain_iff] at hk
    simp [h] at hk
  · intro h
    cases hb : keysContain M k
    · rfl
    · exact absurd (keysContain_iff.mp hb) h

theorem aremove_aset {α : Type} (l : List (String × α)) (k : String) (v : α) :
    aremove (aset l k v) k = aremove l k := by
  induction l with
  | nil => simp [aset, aremove]
  | cons p rest ih =>
    obtain ⟨k', v'⟩ := p
    by_cases hk : k' = k
    · subst hk
      simp [aset, aremove]
    · simp [aset, hk, aremove, ih]

theorem mem_aset {α : Type} {l : List (String × α)} {k : String} {v : α} {p : String × α}
    (h : p ∈ aset l k v) : p = (k, v) ∨ p ∈ l := by
  induction l with
  | nil =>
    simp only [aset, List.mem_singleton] at h
    exact Or.inl h
  | cons q rest ih =>
    obtain ⟨k', v'⟩ := q
    by_cases hk : k' = k
    · subst hk
      simp [aset] at h
      rcases h with h | h
      · exact Or.inl (by simp [h])
      · exact Or.inr (List.mem_cons_of_mem _ h)
    · simp only [aset, if_neg hk, List.mem_cons] at h
      rcases h with h | h
      · exact Or.inr (h ▸ List.mem_cons_self _ _)
      · rcases ih h with h | h
        · exact Or.inl h
        · exact Or.inr (List.mem_cons_of_mem _ h)

theorem keys_aset_of_some {α : Type} {l : List (String × α)} {k : String} {w : α} (v : α)
    (h : alookup l k = some w) : (aset l k v).map Prod.fst = l.map Prod.fst := by
  induction l with
  | nil => simp [alookup] at h
  | cons p rest ih =>
    obtain ⟨k', v'⟩ := p
    by_cases hk : k' = k
    · subst hk
      simp [aset]
    · simp only [alookup, if_neg hk] at h
      simp [aset, hk, ih h]

theorem keys_aremove_sublist {α : Type} (l : List (String × α)) (k : String) :
    ((aremove l k).map Prod.fst).Sublist (l.map Prod.fst) := by
  induction l with
  | nil => simp [aremove]
  | cons p rest ih =>
    obtain ⟨k', v'⟩ := p
    by_cases hk : k' = k
    · subst hk
      simpa [aremove] using ih.trans (List.sublist_cons_self _ _)
    · simpa [aremove, hk] using List.Sublist.cons₂ k' ih

-- ---------------------------------------------------------------------
-- strategy dispatch and handler-update lemmas
-- ---------------------------------------------------------------------

theorem make_eq (e : Elem) (k : String) (v : JSVal) :
    makeAttributeHandler e k v = ⟨handlerKind e k, handlerName e k, v⟩ := by
  unfold handlerKind handlerName makeAttributeHandler
  split_ifs <;> rfl

theorem sameShape_refl (e : Elem) : sameShape e e := ⟨rfl, rfl, rfl, rfl⟩

theorem sameShape_trans {e₁ e₂ e₃ : Elem} (h₁ : sameShape e₁ e₂) (h₂ : sameShape e₂ e₃) :
    sameShape e₁ e₃ :=
  ⟨h₂.1.trans h₁.1, h₂.2.1.trans h₁.2.1, h₂.2.2.1.trans h₁.2.2.1, h₂.2.2.2.trans h₁.2.2.2⟩

theorem handlerKind_congr {e e' : Elem} (h : sameShape e e') (k : String) :
    handlerKind e' k = handlerKind e k := by
  unfold handlerKind makeAttributeHandler isSVGElement
  rw [h.1, h.2.1]

theorem handlerName_congr {e e' : Elem} (h : sameShape e e') (k : String) :
    handlerName e' k = handlerName e k := by
  unfold handlerName makeAttributeHandler isSVGElement
  rw [h.1, h.2.1]

theorem WFHandler_congr {e e' : Elem} (h : sameShape e e') {k : String} {hd : Handler}
    (hw : WFHandler e k hd) : WFHandler e' k hd :=
  ⟨hw.1.trans (handlerKind_congr h k).symm, hw.2.1.trans (handlerName_congr h k).symm, hw.2.2⟩

theorem WFHandlers_congr {e e' : Elem} (h : sameShape e e') {hs : Handlers}
    (hw : WFHandlers e hs) : WFHandlers e' hs :=
  ⟨hw.1, fun p hp => WFHandler_congr h (hw.2 p hp)⟩

theorem handlerKind_boolean {e : Elem} {k : String}
    (h : handlerKind e k = HandlerKind.boolean) :
    e.tagName = "OPTION" ∨ e.tagName = "INPUT" := by
  unfold handlerKind makeAttributeHandler at h
  split_ifs at h <;> simp_all <;> tauto

theorem handlerKind_plain_props {e : Elem} {k : String}
    (h : handlerKind e k = HandlerKind.plain) :
    k ≠ "class" ∧ handlerName e k = k := by
  unfold handlerKind makeAttributeHandler at h
  unfold handlerName makeAttributeHandler
  split_ifs at h ⊢ <;> simp_all

theorem isStringOrNull_of_isString {v : JSVal} (h : v.isString = true) :
    v.isStringOrNull = true := by
  cases v <;> simp_all [JSVal.isString, JSVal.isStringOrNull]

theorem isString_of_ne_null {v : JSVal} (h1 : v.isStringOrNull = true)
    (h2 : v ≠ JSVal.vNull) : v.isString = true := by
  cases v <;> simp_all [JSVal.isString, JSVal.isStringOrNull]

theorem ne_null_of_isString {v : JSVal} (h : v.isString = true) : v ≠ JSVal.vNull := by
  cases v <;> simp_all [JSVal.isString]

theorem splitTokens_ok {v : JSVal} (h : v.isStringOrNull = true) :
    ∃ ts, splitTokens v = Except.ok ts := by
  cases v with
  | vNull => exact ⟨[], rfl⟩
  | vStr s => exact ⟨_, rfl⟩
  | vObj i => simp [JSVal.isStringOrNull] at h

theorem BooleanHandler.focused_ok {e : Elem}
    (h : e.tagName = "OPTION" ∨ e.tagName = "INPUT") :
    ∃ b, BooleanHandler.focused e = Except.ok b := by
  unfold BooleanHandler.focused
  rcases h with h | h <;> simp [h]

/-- A well-formed handler applied to string-or-null old and new values
never throws, and its update cannot change the element's identity or
focus state. -/
theorem update_ok_shape (h : Handler) (e : Elem) (ov v : JSVal)
    (hov : ov.isStringOrNull = true) (hv : v.isStringOrNull = true)
    (hb : h.kind = HandlerKind.boolean → e.tagName = "OPTION" ∨ e.tagName = "INPUT") :
    ∃ e' ms, Handler.update h e ov v = Except.ok (e', ms) ∧ sameShape e e' := by
  cases hk : h.kind with
  | plain =>
    simp only [Handler.update, hk, AttributeHandler.update]
    by_cases h1 : v = JSVal.vNull
    · simp only [if_pos h1]
      by_cases h2 : ov ≠ JSVal.vNull
      · simp only [if_pos h2]
        exact ⟨_, _, rfl, ⟨rfl, rfl, rfl, rfl⟩⟩
      · simp only [if_neg h2]
        exact ⟨_, _, rfl, sameShape_refl e⟩
    · simp only [if_neg h1]
      exact ⟨_, _, rfl, ⟨rfl, rfl, rfl, rfl⟩⟩
  | cls =>
    obtain ⟨tso, hso⟩ := splitTokens_ok hov
    obtain ⟨tsv, hsv⟩ := splitTokens_ok hv
    simp only [Handler.update, hk, BaseClassHandler.update, hso, hsv]
    exact ⟨_, _, rfl, ⟨rfl, rfl, rfl, rfl⟩⟩
  | svgCls =>
    obtain ⟨tso, hso⟩ := splitTokens_ok hov
    obtain ⟨tsv, hsv⟩ := splitTokens_ok hv
    simp only [Handler.update, hk, BaseClassHandler.update, hso, hsv]
    exact ⟨_, _, rfl, ⟨rfl, rfl, rfl, rfl⟩⟩
  | boolean =>
    obtain ⟨b, hfb⟩ := BooleanHandler.focused_ok (hb hk)
    simp only [Handler.update, hk, BooleanHandler.update, hfb]
    cases b
    · by_cases h1 : v = JSVal.vNull
      · simp only [if_pos h1]
        by_cases h2 : ov ≠ JSVal.vNull
        · simp only [if_pos h2]
          exact ⟨_, _, rfl, ⟨rfl, rfl, rfl, rfl⟩⟩
        · simp only [if_neg h2]
          exact ⟨_, _, rfl, sameShape_refl e⟩
      · simp only [if_neg h1]
        exact ⟨_, _, rfl, ⟨rfl, rfl, rfl, rfl⟩⟩
    · exact ⟨_, _, rfl, sameShape_refl e⟩
  | valueRef =>
    simp only [Handler.update, hk, ValueHandler.update]
    by_cases hf : e.focused
    · simp only [if_pos hf]
      exact ⟨_, _, rfl, sameShape_refl e⟩
    · simp only [if_neg hf]
      exact ⟨_, _, rfl, ⟨rfl, rfl, rfl, rfl⟩⟩
  | xlink =>
    simp only [Handler.update, hk, XlinkHandler.update]
    by_cases h1 : v = JSVal.vNull
    · simp only [if_pos h1]
      by_cases h2 : ov ≠ JSVal.vNull
      · simp only [if_pos h2]
        exact ⟨_, _, rfl, ⟨rfl, rfl, rfl, rfl⟩⟩
      · simp only [if_neg h2]
        exact ⟨_, _, rfl, sameShape_refl e⟩
    · simp only [if_neg h1]
      exact ⟨_, _, rfl, ⟨rfl, rfl, rfl, rfl⟩⟩

theorem isString_exists {v : JSVal} (h : v.isString = true) : ∃ s, v = JSVal.vStr s := by
  cases v with
  | vNull => simp [JSVal.isString] at h
  | vStr s => exact ⟨s, rfl⟩
  | vObj i => simp [JSVal.isString] at h

theorem keysContain_nil (k : String) : keysContain ([] : AttrMap) k = false := rfl

theorem bind_ok {α β : Type} (a : α) (f : α → Except String β) :
    (Except.ok a : Except String α) >>= f = f a := rfl

theorem bind_err {α β : Type} (m : String) (f : α → Except String β) :
    (Except.error m : Except String α) >>= f = Except.error m := rfl

theorem ifNullNull {β : Type} (a b : β) :
    (if JSVal.vNull = JSVal.vNull then a else b) = a := if_pos rfl

theorem ifStrNeNull {β : Type} (s : String) (a b : β) :
    (if JSVal.vStr s ≠ JSVal.vNull then a else b) = a := if_pos (by simp)

/-- Inversion for the plain strategy's removal behaviour. -/
theorem update_null_removes_plain {h : Handler} {e e' : Elem} {ms : List Mut} {s : String}
    (hkind : h.kind = HandlerKind.plain)
    (hu : Handler.update h e (JSVal.vStr s) JSVal.vNull = Except.ok (e', ms)) :
    e' = e.removeAttribute h.name := by
  simp only [Handler.update, hkind, AttributeHandler.update, ifNullNull, ifStrNeNull] at hu
  injection hu with hp
  injection hp with h1 h2
  exact h1.symm

/-- Inversion for the xlink strategy's removal behaviour: a null new value
against a string old value removes the namespaced attribute. -/
theorem update_null_removes_xlink {h : Handler} {e e' : Elem} {ms : List Mut} {s : String}
    (hkind : h.kind = HandlerKind.xlink)
    (hu : Handler.update h e (JSVal.vStr s) JSVal.vNull = Except.ok (e', ms)) :
    e' = { e with nsAttrs := aremove e.nsAttrs h.name } := by
  simp only [Handler.update, hkind, XlinkHandler.update, ifNullNull, ifStrNeNull] at hu
  injection hu with hp
  injection hp with h1 h2
  exact h1.symm

/-- No handler invoked with a null new value can create a plain attribute
other than `class` (the token-set setter rewrites the `class` attribute
even on removal; every other strategy only deletes attributes or touches
non-attribute state). -/
theorem update_null_attrs_none {h : Handler} {e e' : Elem} {ov : JSVal} {ms : List Mut}
    (hu : Handler.update h e ov JSVal.vNull = Except.ok (e', ms))
    {k : String} (hk : k ≠ "class") (h0 : alookup e.attrs k = none) :
    alookup e'.attrs k = none := by
  cases hkind : h.kind
  case plain =>
    simp only [Handler.update, hkind, AttributeHandler.update, ifNullNull] at hu
    by_cases h2 : ov ≠ JSVal.vNull
    · rw [if_pos h2] at hu
      injection hu with hp
      injection hp with h1 h2m
      rw [← h1]
      show alookup (aremove e.attrs h.name) k = none
      by_cases hkn : k = h.name
      · subst hkn; exact alookup_aremove_self _ _
      · rw [alookup_aremove_ne _ hkn]; exact h0
    · rw [if_neg h2] at hu
      injection hu with hp
      injection hp with h1 h2m
      rw [← h1]; exact h0
  case cls =>
    simp only [Handler.update, hkind, BaseClassHandler.update] at hu
    cases hso : splitTokens ov with
    | error msg =>
      rw [hso, bind_err] at hu
      exact Except.noConfusion hu
    | ok ts =>
      rw [hso, bind_ok, show splitTokens JSVal.vNull = Except.ok ([] : List String) from rfl,
        bind_ok] at hu
      simp only [ClassHandler.setValue] at hu
      injection hu with hp
      injection hp with h1 h2m
      rw [← h1]
      show alookup (aset e.attrs "class" _) k = none
      rw [alookup_aset_ne _ _ hk]; exact h0
  case svgCls =>
    simp only [Handler.update, hkind, BaseClassHandler.update] at hu
    cases hso : splitTokens ov with
    | error msg =>
      rw [hso, bind_err] at hu
      exact Except.noConfusion hu
    | ok ts =>
      rw [hso, bind_ok, show splitTokens JSVal.vNull = Except.ok ([] : List String) from rfl,
        bind_ok] at hu
      simp only [SVGClassHandler.setValue] at hu
      injection hu with hp
      injection hp with h1 h2m
      rw [← h1]
      show alookup (aset e.attrs "class" _) k = none
      rw [alookup_aset_ne _ _ hk]; exact h0
  case boolean =>
    simp only [Handler.update, hkind, BooleanHandler.update] at hu
    cases hfb : BooleanHandler.focused e with
    | error msg =>
      rw [hfb, bind_err] at hu
      exact Except.noConfusion hu
    | ok b =>
      rw [hfb, bind_ok] at hu
      cases b
      · rw [if_pos True.intro] at hu
        by_cases h2 : ov ≠ JSVal.vNull
        · rw [if_pos h2] at hu
          injection hu with hp
          injection hp with h1 h2m
          rw [← h1]; exact h0
        · rw [if_neg h2] at hu
          injection hu with hp
          injection hp with h1 h2m
          rw [← h1]; exact h0
      · injection hu with hp
        injection hp with h1 h2m
        rw [← h1]; exact h0
  case valueRef =>
    simp only [Handler.update, hkind, ValueHandler.update] at hu
    by_cases hf : e.focused = true
    · rw [if_pos hf] at hu
      injection hu with hp
      injection hp with h1 h2m
      rw [← h1]; exact h0
    · rw [if_neg hf] at hu
      injection hu with hp
      injection hp with h1 h2m
      rw [← h1]; exact h0
  case xlink =>
    simp only [Handler.update, hkind, XlinkHandler.update, ifNullNull] at hu
    by_cases h2 : ov ≠ JSVal.vNull
    · rw [if_pos h2] at hu
      injection hu with hp
      injection hp with h1 h2m
      rw [← h1]; exact h0
    · rw [if_neg h2] at hu
      injection hu with hp
      injection hp with h1 h2m
      rw [← h1]; exact h0

/-- No handler invoked with a null new value can create an xlink-namespaced
attribute (only the xlink strategy touches them, and on removal it only
deletes). -/
theorem update_null_nsAttrs_none {h : Handler} {e e' : Elem} {ov : JSVal} {ms : List Mut}
    (hu : Handler.update h e ov JSVal.vNull = Except.ok (e', ms))
    {k : String} (h0 : alookup e.nsAttrs k = none) :
    alookup e'.nsAttrs k = none := by
  cases hkind : h.kind
  case plain =>
    simp only [Handler.update, hkind, AttributeHandler.update, ifNullNull] at hu
    by_cases h2 : ov ≠ JSVal.vNull
    · rw [if_pos h2] at hu
      injection hu with hp
      injection hp with h1 h2m
      rw [← h1]; exact h0
    · rw [if_neg h2] at hu
      injection hu with hp
      injection hp with h1 h2m
      rw [← h1]; exact h0
  case cls =>
    simp only [Handler.update, hkind, BaseClassHandler.update] at hu
    cases hso : splitTokens ov with
    | error msg =>
      rw [hso, bind_err] at hu
      exact Except.noConfusion hu
    | ok ts =>
      rw [hso, bind_ok, show splitTokens JSVal.vNull = Except.ok ([] : List String) from rfl,
        bind_ok] at hu
      simp only [ClassHandler.setValue] at hu
      injection hu with hp
      injection hp with h1 h2m
      rw [← h1]; exact h0
  case svgCls =>
    simp only [Handler.update, hkind, BaseClassHandler.update] at hu
    cases hso : splitTokens ov with
    | error msg =>
      rw [hso, bind_err] at hu
      exact Except.noConfusion hu
    | ok ts =>
      rw [hso, bind_ok, show splitTokens JSVal.vNull = Except.ok ([] : List String) from rfl,
        bind_ok] at hu
      simp only [SVGClassHandler.setValue] at hu
      injection hu with hp
      injection hp with h1 h2m
      rw [← h1]; exact h0
  case boolean =>
    simp only [Handler.update, hkind, BooleanHandler.update] at hu
    cases hfb : BooleanHandler.focused e with
    | error msg =>
      rw [hfb, bind_err] at hu
      exact Except.noConfusion hu
    | ok b =>
      rw [hfb, bind_ok] at hu
      cases b
      · rw [if_pos True.intro] at hu
        by_cases h2 : ov ≠ JSVal.vNull
        · rw [if_pos h2] at hu
          injection hu with hp
          injection hp with h1 h2m
          rw [← h1]; exact h0
        · rw [if_neg h2] at hu
          injection hu with hp
          injection hp with h1 h2m
          rw [← h1]; exact h0
      · injection hu with hp
        injection hp with h1 h2m
        rw [← h1]; exact h0
  case valueRef =>
    simp only [Handler.update, hkind, ValueHandler.update] at hu
    by_cases hf : e.focused = true
    · rw [if_pos hf] at hu
      injection hu with hp
      injection hp with h1 h2m
      rw [← h1]; exact h0
    · rw [if_neg hf] at hu
      injection hu with hp
      injection hp with h1 h2m
      rw [← h1]; exact h0
  case xlink =>
    simp only [Handler.update, hkind, XlinkHandler.update, ifNullNull] at hu
    by_cases h2 : ov ≠ JSVal.vNull
    · rw [if_pos h2] at hu
      injection hu with hp
      injection hp with h1 h2m
      rw [← h1]
      show alookup (aremove e.nsAttrs _) k = none
      by_cases hkn : k = h.name
      · subst hkn; exact alookup_aremove_self _ _
      · rw [alookup_aremove_ne _ hkn]; exact h0
    · rw [if_neg h2] at hu
      injection hu with hp
      injection hp with h1 h2m
      rw [← h1]; exact h0

-- ---------------------------------------------------------------------
-- removal-phase lemmas
-- ---------------------------------------------------------------------

theorem WFHandlers_tail {e : Elem} {p : String × Handler} {rest : Handlers}
    (hw : WFHandlers e (p :: rest)) : WFHandlers e rest := by
  refine ⟨?_, fun q hq => hw.2 q (List.mem_cons_of_mem _ hq)⟩
  have := hw.1
  simp only [List.map_cons, List.nodup_cons] at this
  exact this.2

theorem WFHandlers_head_not_mem {e : Elem} {p : String × Handler} {rest : Handlers}
    (hw : WFHandlers e (p :: rest)) : p.1 ∉ rest.map Prod.fst := by
  have := hw.1
  simp only [List.map_cons, List.nodup_cons] at this
  exact this.1

/-- When every tracked key appears in the map, the removal phase does
nothing. -/
theorem phase1_noop (M : AttrMap) :
    ∀ (hs : Handlers) (e : Elem), (∀ p ∈ hs, keysContain M p.1 = true) →
      updateRemovePhase M hs e = ⟨hs, e, [], [], none⟩ := by
  intro hs
  induction hs with
  | nil => intro e _; rfl
  | cons p rest ih =>
    intro e hall
    obtain ⟨k, h⟩ := p
    have hc := hall (k, h) (List.mem_cons_self _ _)
    simp only [updateRemovePhase, hc, if_true]
    rw [ih e (fun q hq => hall q (List.mem_cons_of_mem _ hq))]

/-- Characterization of the removal phase on a well-formed table: it never
throws, keeps exactly the handlers whose keys survive in the map, invokes
each dropped handler once with `(its remembered value, null)` in table
order, and preserves the element's identity/focus and the table's
well-formedness. -/
theorem phase1_char (M : AttrMap) :
    ∀ (hs : Handlers) (e : Elem), WFHandlers e hs →
      (updateRemovePhase M hs e).err = none ∧
      (updateRemovePhase M hs e).handlers = hs.filter (fun p => keysContain M p.1) ∧
      (updateRemovePhase M hs e).calls =
        (hs.filter (fun p => !keysContain M p.1)).map (fun p => (p.1, p.2.value, JSVal.vNull)) ∧
      sameShape e (updateRemovePhase M hs e).elem ∧
      WFHandlers (updateRemovePhase M hs e).elem (updateRemovePhase M hs e).handlers := by
  intro hs
  induction hs with
  | nil => intro e hw; exact ⟨rfl, rfl, rfl, sameShape_refl e, hw⟩
  | cons p rest ih =>
    intro e hw
    obtain ⟨k, h⟩ := p
    have hw_rest : WFHandlers e rest := WFHandlers_tail hw
    have hwk : WFHandler e k h := hw.2 (k, h) (List.mem_cons_self _ _)
    have hnotmem : k ∉ rest.map Prod.fst := WFHandlers_head_not_mem hw
    by_cases hc : keysContain M k = true
    · obtain ⟨he, hh, hcall, hsh, hwf⟩ := ih e hw_rest
      simp only [updateRemovePhase, hc, if_true]
      refine ⟨he, ?_, ?_, hsh, ?_⟩
      · simp [List.filter_cons, hc, hh]
      · simp [List.filter_cons, hc, hcall]
      · refine ⟨?_, ?_⟩
        · simp only [List.map_cons, List.nodup_cons]
          refine ⟨?_, hwf.1⟩
          intro hkmem
          rw [hh] at hkmem
          exact hnotmem
            (List.Sublist.subset (List.Sublist.map Prod.fst (List.filter_sublist rest)) hkmem)
        · intro q hq
          rcases List.mem_cons.mp hq with heq | hmem
          · rw [heq]
            exact WFHandler_congr hsh hwk
          · exact hwf.2 q hmem
    · have hov : h.value.isStringOrNull = true := isStringOrNull_of_isString hwk.2.2
      have hc2 : keysContain M k = false := by simpa using hc
      obtain ⟨e', ms, hok, hsh1⟩ :=
        update_ok_shape { h with value := JSVal.vNull } e h.value JSVal.vNull hov rfl
          (fun hb => handlerKind_boolean (hwk.1.symm.trans hb))
      obtain ⟨he, hh, hcall, hsh2, hwf⟩ := ih e' (WFHandlers_congr hsh1 hw_rest)
      simp only [updateRemovePhase, hc2, Bool.false_eq_true, if_false, hok]
      refine ⟨he, ?_, ?_, sameShape_trans hsh1 hsh2, ?_⟩
      · simp [List.filter_cons, hc2, hh]
      · simp [List.filter_cons, hc2, hcall]
      · exact hwf

/-- Running the removal phase with an empty map removes every plain
attribute the table tracked, and cannot introduce attributes other than
`class`. -/
theorem phase1_empty_attrs :
    ∀ (hs : Handlers) (e : Elem), WFHandlers e hs →
      (∀ p ∈ hs, p.2.kind = HandlerKind.plain →
        alookup (updateRemovePhase [] hs e).elem.attrs p.1 = none) ∧
      (∀ k, k ≠ "class" → alookup e.attrs k = none →
        alookup (updateRemovePhase [] hs e).elem.attrs k = none) := by
  intro hs
  induction hs with
  | nil =>
    intro e _
    exact ⟨fun p hp => (List.not_mem_nil p hp).elim, fun k _ h0 => h0⟩
  | cons q rest ih =>
    intro e hw
    obtain ⟨k, h⟩ := q
    have hw_rest := WFHandlers_tail hw
    have hwk : WFHandler e k h := hw.2 (k, h) (List.mem_cons_self _ _)
    have hov : h.value.isStringOrNull = true := isStringOrNull_of_isString hwk.2.2
    obtain ⟨e', ms, hok, hsh1⟩ :=
      update_ok_shape { h with value := JSVal.vNull } e h.value JSVal.vNull hov rfl
        (fun hb => handlerKind_boolean (hwk.1.symm.trans hb))
    have hrec := ih e' (WFHandlers_congr hsh1 hw_rest)
    simp only [updateRemovePhase, keysContain_nil, Bool.false_eq_true, if_false, hok]
    constructor
    · intro p hp hpk
      rcases List.mem_cons.mp hp with heq | hmem
      · subst heq
        have hpk' : h.kind = HandlerKind.plain := hpk
        have hkp : handlerKind e k = HandlerKind.plain := hwk.1.symm.trans hpk'
        obtain ⟨hkc, hkn⟩ := handlerKind_plain_props hkp
        have hnm : h.name = k := hwk.2.1.trans hkn
        obtain ⟨s, hsv⟩ := isString_exists hwk.2.2
        rw [hsv] at hok
        have he' : e' = e.removeAttribute h.name := update_null_removes_plain hpk' hok
        refine hrec.2 k hkc ?_
        rw [he']
        show alookup (aremove e.attrs h.name) k = none
        rw [hnm]
        exact alookup_aremove_self _ _
      · exact hrec.1 p hmem hpk
    · intro k' hk' h0
      exact hrec.2 k' hk' (update_null_attrs_none hok hk' h0)

/-- Running the removal phase with an empty map removes every
xlink-namespaced attribute the table tracked (under each handler's stored
`this.name`, the attribute name with the `xlink:` prefix stripped), and
cannot introduce namespaced attributes. -/
theorem phase1_empty_nsAttrs :
    ∀ (hs : Handlers) (e : Elem), WFHandlers e hs →
      (∀ p ∈ hs, p.2.kind = HandlerKind.xlink →
        alookup (updateRemovePhase [] hs e).elem.nsAttrs p.2.name = none) ∧
      (∀ k, alookup e.nsAttrs k = none →
        alookup (updateRemovePhase [] hs e).elem.nsAttrs k = none) := by
  intro hs
  induction hs with
  | nil =>
    intro e _
    exact ⟨fun p hp => (List.not_mem_nil p hp).elim, fun k h0 => h0⟩
  | cons q rest ih =>
    intro e hw
    obtain ⟨k, h⟩ := q
    have hw_rest := WFHandlers_tail hw
    have hwk : WFHandler e k h := hw.2 (k, h) (List.mem_cons_self _ _)
    have hov : h.value.isStringOrNull = true := isStringOrNull_of_isString hwk.2.2
    obtain ⟨e', ms, hok, hsh1⟩ :=
      update_ok_shape { h with value := JSVal.vNull } e h.value JSVal.vNull hov rfl
        (fun hb => handlerKind_boolean (hwk.1.symm.trans hb))
    have hrec := ih e' (WFHandlers_congr hsh1 hw_rest)
    simp only [updateRemovePhase, keysContain_nil, Bool.false_eq_true, if_false, hok]
    constructor
    · intro p hp hpk
      rcases List.mem_cons.mp hp with heq | hmem
      · subst heq
        have hpk' : h.kind = HandlerKind.xlink := hpk
        obtain ⟨s, hsv⟩ := isString_exists hwk.2.2
        rw [hsv] at hok
        have he' : e' = { e with nsAttrs := aremove e.nsAttrs h.name } :=
          update_null_removes_xlink hpk' hok
        refine hrec.2 h.name ?_
        rw [he']
        show alookup (aremove e.nsAttrs h.name) h.name = none
        exact alookup_aremove_self _ _
      · exact hrec.1 p hmem hpk
    · intro k' h0
      exact hrec.2 k' (update_null_nsAttrs_none hok h0)

-- ---------------------------------------------------------------------
-- addition-phase lemmas
-- ---------------------------------------------------------------------

theorem alookup_cons_self {α : Type} (k : String) (v : α) (l : List (String × α)) :
    alookup ((k, v) :: l) k = some v := by
  simp [alookup]

theorem alookup_cons_ne {α : Type} {k k0 : String} (v : α) (l : List (String × α))
    (h : k ≠ k0) : alookup ((k0, v) :: l) k = alookup l k := by
  simp [alookup, Ne.symm h]

theorem alookup_append_single_ne {α : Type} (hs : List (String × α)) {k k' : String} (v : α)
    (hne : k' ≠ k) : alookup (hs ++ [(k, v)]) k' = alookup hs k' := by
  cases hl : alookup hs k' with
  | some w => exact alookup_append_left _ hl
  | none =>
    rw [alookup_append_right _ hl]
    simp [alookup, Ne.symm hne, hl]

theorem alookup_append_single_self {α : Type} {hs : List (String × α)} {k : String} (v : α)
    (h : alookup hs k = none) : alookup (hs ++ [(k, v)]) k = some v := by
  rw [alookup_append_right _ h]
  simp [alookup]

theorem nodup_cons_head_not_mem {α : Type} {p : String × α} {rest : List (String × α)}
    (hN : ((p :: rest).map Prod.fst).Nodup) : p.1 ∉ rest.map Prod.fst := by
  simp only [List.map_cons, List.nodup_cons] at hN
  exact hN.1

theorem nodup_keys_append_single {α : Type} {hs : List (String × α)} {k : String} (v : α)
    (hn : (hs.map Prod.fst).Nodup) (hmem : alookup hs k = none) :
    (((hs ++ [(k, v)]) : List (String × α)).map Prod.fst).Nodup := by
  rw [List.map_append]
  simp only [List.map_cons, List.map_nil]
  rw [List.nodup_append]
  refine ⟨hn, List.nodup_singleton _, ?_⟩
  intro a ha hb
  simp only [List.mem_singleton] at hb
  subst hb
  exact (alookup_eq_none_iff.mp hmem) ha

-- the five possible outcomes of one addition-phase iteration -----------

theorem addStep_untracked_null_skip {hs : Handlers} {reg : Option JSVal} {k : String}
    {e : Elem} (h1 : alookup hs k = none) (h2 : reg = some JSVal.vNull) :
    addStep hs reg k JSVal.vNull e = ⟨hs, reg, e, [], [], [], none⟩ := by
  simp [addStep, h1, h2]

theorem addStep_untracked_null_err {hs : Handlers} {reg : Option JSVal} {k : String}
    {e : Elem} (h1 : alookup hs k = none) (h2 : reg ≠ some JSVal.vNull) :
    addStep hs reg k JSVal.vNull e =
      ⟨hs, reg, e, [], [], [], some "TypeError: cannot set property value of null"⟩ := by
  simp [addStep, h1, h2]

theorem addStep_untracked_create {hs : Handlers} {reg : Option JSVal} {k : String}
    {v : JSVal} {e : Elem} (h1 : alookup hs k = none) (h2 : v ≠ JSVal.vNull)
    {e' : Elem} {ms : List Mut}
    (h3 : Handler.update (makeAttributeHandler e k v) e JSVal.vNull v = Except.ok (e', ms)) :
    addStep hs reg k v e =
      ⟨hs ++ [(k, makeAttributeHandler e k v)], some JSVal.vNull, e', ms,
        [(k, JSVal.vNull, v)], [k], none⟩ := by
  simp [addStep, h1, h2, h3]

theorem addStep_tracked_skip {hs : Handlers} {reg : Option JSVal} {k : String}
    {v : JSVal} {e : Elem} {hd : Handler} (h1 : alookup hs k = some hd)
    (h2 : hd.value = v) :
    addStep hs reg k v e = ⟨hs, some hd.value, e, [], [], [], none⟩ := by
  simp [addStep, h1, h2]

theorem addStep_tracked_diff {hs : Handlers} {reg : Option JSVal} {k : String}
    {v : JSVal} {e : Elem} {hd : Handler} (h1 : alookup hs k = some hd)
    (h2 : ¬hd.value = v) {e' : Elem} {ms : List Mut}
    (h3 : Handler.update { hd with value := v } e hd.value v = Except.ok (e', ms)) :
    addStep hs reg k v e =
      ⟨if v = JSVal.vNull then aremove (aset hs k { hd with value := v }) k
         else aset hs k { hd with value := v },
        some hd.value, e', ms, [(k, hd.value, v)], [], none⟩ := by
  simp [addStep, h1, h2, h3]

/-- Unfold one iteration of the addition phase once the step outcome is
known. -/
theorem phase2_cons_step {hs : Handlers} {reg : Option JSVal} {k : String} {v : JSVal}
    {e : Elem} {s : StepOut} (hstep : addStep hs reg k v e = s) (rest : AttrMap) :
    updateAddPhase hs reg ((k, v) :: rest) e =
      match s.err with
      | some msg => ⟨s.handlers, s.elem, s.muts, s.calls, s.ctors, some msg⟩
      | none =>
        ⟨(updateAddPhase s.handlers s.reg rest s.elem).handlers,
         (updateAddPhase s.handlers s.reg rest s.elem).elem,
         s.muts ++ (updateAddPhase s.handlers s.reg rest s.elem).muts,
         s.calls ++ (updateAddPhase s.handlers s.reg rest s.elem).calls,
         s.ctors ++ (updateAddPhase s.handlers s.reg rest s.elem).ctors,
         (updateAddPhase s.handlers s.reg rest s.elem).err⟩ := by
  simp only [updateAddPhase, hstep]

theorem addStep_untracked_create_err {hs : Handlers} {reg : Option JSVal} {k : String}
    {v : JSVal} {e : Elem} (h1 : alookup hs k = none) (h2 : v ≠ JSVal.vNull)
    {msg : String}
    (h3 : Handler.update (makeAttributeHandler e k v) e JSVal.vNull v = Except.error msg) :
    addStep hs reg k v e =
      ⟨hs ++ [(k, makeAttributeHandler e k v)], some JSVal.vNull, e, [],
        [(k, JSVal.vNull, v)], [k], some msg⟩ := by
  simp [addStep, h1, h2, h3]

theorem addStep_tracked_diff_err {hs : Handlers} {reg : Option JSVal} {k : String}
    {v : JSVal} {e : Elem} {hd : Handler} (h1 : alookup hs k = some hd)
    (h2 : ¬hd.value = v) {msg : String}
    (h3 : Handler.update { hd with value := v } e hd.value v = Except.error msg) :
    addStep hs reg k v e =
      ⟨aset hs k { hd with value := v }, some hd.value, e, [], [(k, hd.value, v)], [],
        some msg⟩ := by
  simp [addStep, h1, h2, h3]

theorem addStep_frame (hs : Handlers) (reg : Option JSVal) (k : String) (v : JSVal)
    (e : Elem) {k' : String} (hne : k' ≠ k) :
    alookup (addStep hs reg k v e).handlers k' = alookup hs k' := by
  cases h1 : alookup hs k with
  | none =>
    by_cases h2 : v = JSVal.vNull
    · subst h2
      by_cases h3 : reg = some JSVal.vNull
      · rw [addStep_untracked_null_skip h1 h3]
      · rw [addStep_untracked_null_err h1 h3]
    · cases h3 : Handler.update (makeAttributeHandler e k v) e JSVal.vNull v with
      | ok pr =>
        obtain ⟨e', ms⟩ := pr
        rw [addStep_untracked_create h1 h2 h3]
        exact alookup_append_single_ne hs _ hne
      | error msg =>
        rw [addStep_untracked_create_err h1 h2 h3]
        exact alookup_append_single_ne hs _ hne
  | some hd =>
    by_cases h2 : hd.value = v
    · rw [addStep_tracked_skip h1 h2]
    · cases h3 : Handler.update { hd with value := v } e hd.value v with
      | ok pr =>
        obtain ⟨e', ms⟩ := pr
        rw [addStep_tracked_diff h1 h2 h3]
        show alookup
            (if v = JSVal.vNull then aremove (aset hs k { hd with value := v }) k
             else aset hs k { hd with value := v }) k' = alookup hs k'
        by_cases h4 : v = JSVal.vNull
        · rw [if_pos h4, alookup_aremove_ne _ hne, alookup_aset_ne _ _ hne]
        · rw [if_neg h4, alookup_aset_ne _ _ hne]
      | error msg =>
        rw [addStep_tracked_diff_err h1 h2 h3]
        exact alookup_aset_ne _ _ hne

/-- Keys not present in the map are untouched by the addition phase. -/
theorem phase2_frame (M : AttrMap) :
    ∀ (hs : Handlers) (reg : Option JSVal) (e : Elem) (k : String),
      alookup M k = none →
      alookup (updateAddPhase hs reg M e).handlers k = alookup hs k := by
  induction M with
  | nil => intro hs reg e k _; rfl
  | cons p rest ih =>
    obtain ⟨k0, v0⟩ := p
    intro hs reg e k hM
    have hne : k ≠ k0 := by
      intro hEq
      subst hEq
      rw [alookup_cons_self] at hM
      exact Option.noConfusion hM
    have hMr : alookup rest k = none := by
      rw [alookup_cons_ne _ _ hne] at hM
      exact hM
    rw [phase2_cons_step rfl rest]
    cases herr : (addStep hs reg k0 v0 e).err with
    | some msg =>
      exact addStep_frame hs reg k0 v0 e hne
    | none =>
      show alookup (updateAddPhase (addStep hs reg k0 v0 e).handlers
          (addStep hs reg k0 v0 e).reg rest (addStep hs reg k0 v0 e).elem).handlers k =
        alookup hs k
      rw [ih _ _ _ _ hMr]
      exact addStep_frame hs reg k0 v0 e hne

theorem lookup_some_ne {α : Type} {l : List (String × α)} {k k0 : String} {v : α}
    (h : alookup l k = some v) (h0 : alookup l k0 = none) : k ≠ k0 := by
  intro hEq
  subst hEq
  rw [h0] at h
  exact Option.noConfusion h

theorem addStep_calls (hs : Handlers) (reg : Option JSVal) (k : String) (v : JSVal)
    (e : Elem) : ∀ c ∈ (addStep hs reg k v e).calls, c.1 = k := by
  cases h1 : alookup hs k with
  | none =>
    by_cases h2 : v = JSVal.vNull
    · subst h2
      by_cases h3 : reg = some JSVal.vNull
      · rw [addStep_untracked_null_skip h1 h3]
        intro c hc
        exact (List.not_mem_nil c hc).elim
      · rw [addStep_untracked_null_err h1 h3]
        intro c hc
        exact (List.not_mem_nil c hc).elim
    · cases h3 : Handler.update (makeAttributeHandler e k v) e JSVal.vNull v with
      | ok pr =>
        obtain ⟨e', ms⟩ := pr
        rw [addStep_untracked_create h1 h2 h3]
        intro c hc
        have : c = (k, JSVal.vNull, v) := List.mem_singleton.mp hc
        rw [this]
      | error msg =>
        rw [addStep_untracked_create_err h1 h2 h3]
        intro c hc
        have : c = (k, JSVal.vNull, v) := List.mem_singleton.mp hc
        rw [this]
  | some hd =>
    by_cases h2 : hd.value = v
    · rw [addStep_tracked_skip h1 h2]
      intro c hc
      exact (List.not_mem_nil c hc).elim
    · cases h3 : Handler.update { hd with value := v } e hd.value v with
      | ok pr =>
        obtain ⟨e', ms⟩ := pr
        rw [addStep_tracked_diff h1 h2 h3]
        intro c hc
        have : c = (k, hd.value, v) := List.mem_singleton.mp hc
        rw [this]
      | error msg =>
        rw [addStep_tracked_diff_err h1 h2 h3]
        intro c hc
        have : c = (k, hd.value, v) := List.mem_singleton.mp hc
        rw [this]

/-- Every handler invocation the addition phase performs is for a key of
the map. -/
theorem phase2_calls_keys (M : AttrMap) :
    ∀ (hs : Handlers) (reg : Option JSVal) (e : Elem),
      ∀ c ∈ (updateAddPhase hs reg M e).calls, keysContain M c.1 = true := by
  induction M with
  | nil =>
    intro hs reg e c hc
    exact (List.not_mem_nil c hc).elim
  | cons p rest ih =>
    obtain ⟨k0, v0⟩ := p
    intro hs reg e c hc
    rw [phase2_cons_step rfl rest] at hc
    cases herr : (addStep hs reg k0 v0 e).err with
    | some msg =>
      rw [herr] at hc
      have hc' : c ∈ (addStep hs reg k0 v0 e).calls := hc
      rw [addStep_calls hs reg k0 v0 e c hc']
      exact keysContain_iff.mpr (by simp)
    | none =>
      rw [herr] at hc
      have hc' : c ∈ (addStep hs reg k0 v0 e).calls ++
          (updateAddPhase (addStep hs reg k0 v0 e).handlers (addStep hs reg k0 v0 e).reg rest
            (addStep hs reg k0 v0 e).elem).calls := hc
      rcases List.mem_append.mp hc' with h | h
      · rw [addStep_calls hs reg k0 v0 e c h]
        exact keysContain_iff.mpr (by simp)
      · have := keysContain_iff.mp (ih _ _ _ c h)
        exact keysContain_iff.mpr (by simp [this])

/-- The main characterization of the addition phase on a well-formed
table, for a map with distinct keys and string-or-null values: the
resulting table stays well formed; the element keeps its identity; the map
splits into a processed prefix (whose non-null keys are tracked with
exactly their new values and whose null keys are untracked afterwards) and
an unprocessed suffix that is empty on success and starts with the
null-valued key whose `handler.value = value` assignment threw on failure;
every invocation is keyed by the map, and an invocation or construction
for a previously untracked key happens only with `oldValue = null` and a
non-null value. -/
theorem phase2_char (M : AttrMap) :
    ∀ (hs : Handlers) (reg : Option JSVal) (e : Elem),
      (M.map Prod.fst).Nodup →
      (∀ p ∈ M, p.2.isStringOrNull = true) →
      WFHandlers e hs →
      WFHandlers (updateAddPhase hs reg M e).elem (updateAddPhase hs reg M e).handlers ∧
      sameShape e (updateAddPhase hs reg M e).elem ∧
      (∃ Mp Ms, M = Mp ++ Ms ∧
        ((updateAddPhase hs reg M e).err = none → Ms = []) ∧
        (∀ msg, (updateAddPhase hs reg M e).err = some msg →
          ∃ k0 rest2, Ms = (k0, JSVal.vNull) :: rest2 ∧
            alookup (updateAddPhase hs reg M e).handlers k0 = none) ∧
        (∀ p ∈ Mp,
          (p.2 ≠ JSVal.vNull →
            ∃ hd, alookup (updateAddPhase hs reg M e).handlers p.1 = some hd ∧
              hd.value = p.2) ∧
          (p.2 = JSVal.vNull → alookup (updateAddPhase hs reg M e).handlers p.1 = none))) ∧
      (∀ c ∈ (updateAddPhase hs reg M e).calls, ∃ v', alookup M c.1 = some v' ∧
        (alookup hs c.1 = none → v' ≠ JSVal.vNull ∧ c.2.1 = JSVal.vNull)) ∧
      (∀ k ∈ (updateAddPhase hs reg M e).ctors, alookup hs k = none) ∧
      (updateAddPhase hs reg M e).ctors.Sublist (M.map Prod.fst) := by
  induction M with
  | nil =>
    intro hs reg e _ _ hw
    exact ⟨hw, sameShape_refl e,
      ⟨[], [], rfl, fun _ => rfl, fun msg h => Option.noConfusion h,
        fun p hp => (List.not_mem_nil p hp).elim⟩,
      fun c hc => (List.not_mem_nil c hc).elim,
      fun k hk => (List.not_mem_nil k hk).elim,
      List.nil_sublist _⟩
  | cons p rest ih =>
    obtain ⟨k0, v0⟩ := p
    intro hs reg e hN hV hw
    have hNr : (rest.map Prod.fst).Nodup := by
      simp only [List.map_cons, List.nodup_cons] at hN
      exact hN.2
    have hk0r : k0 ∉ rest.map Prod.fst := by
      simp only [List.map_cons, List.nodup_cons] at hN
      exact hN.1
    have hVr : ∀ q ∈ rest, q.2.isStringOrNull = true :=
      fun q hq => hV q (List.mem_cons_of_mem _ hq)
    have hV0 : v0.isStringOrNull = true := hV (k0, v0) (List.mem_cons_self _ _)
    have hrk0 : alookup rest k0 = none := alookup_eq_none_iff.mpr hk0r
    cases h1 : alookup hs k0 with
    | none =>
      by_cases h2 : v0 = JSVal.vNull
      · subst h2
        by_cases h3 : reg = some JSVal.vNull
        · -- untracked null key, stale register holds null: silent skip
          rw [phase2_cons_step (addStep_untracked_null_skip h1 h3) rest]
          dsimp only
          simp only [List.nil_append]
          obtain ⟨ih1, ih2, ⟨Mp, Ms, hMM, hok, herr, hMp⟩, ih4, ih5, ih6⟩ :=
            ih hs reg e hNr hVr hw
          refine ⟨ih1, ih2, ⟨(k0, JSVal.vNull) :: Mp, Ms, by simp [hMM], hok, herr, ?_⟩,
            ?_, ih5, ?_⟩
          · intro q hq
            rcases List.mem_cons.mp hq with hq | hq
            · subst hq
              refine ⟨fun hne => absurd rfl hne, fun _ => ?_⟩
              rw [phase2_frame rest _ _ _ _ hrk0]
              exact h1
            · exact hMp q hq
          · intro c hc
            obtain ⟨v', hv', himp⟩ := ih4 c hc
            have hcne : c.1 ≠ k0 := lookup_some_ne hv' hrk0
            exact ⟨v', by rw [alookup_cons_ne _ _ hcne]; exact hv', himp⟩
          · simp only [List.map_cons]
            exact ih6.trans (List.sublist_cons_self _ _)
        · -- untracked null key, stale register non-null: TypeError
          rw [phase2_cons_step (addStep_untracked_null_err h1 h3) rest]
          dsimp only
          refine ⟨hw, sameShape_refl e,
            ⟨[], (k0, JSVal.vNull) :: rest, rfl, ?_, ?_, ?_⟩, ?_, ?_, ?_⟩
          · intro h
            exact Option.noConfusion h
          · intro msg _
            exact ⟨k0, rest, rfl, h1⟩
          · intro q hq
            exact (List.not_mem_nil q hq).elim
          · intro c hc
            exact (List.not_mem_nil c hc).elim
          · intro k hk
            exact (List.not_mem_nil k hk).elim
          · exact List.nil_sublist _
      · -- untracked key with non-null value: construct and install
        have hnew : WFHandler e k0 (makeAttributeHandler e k0 v0) := by
          rw [make_eq]
          exact ⟨rfl, rfl, isString_of_ne_null hV0 h2⟩
        obtain ⟨e', ms, hupd, hsh⟩ :=
          update_ok_shape (makeAttributeHandler e k0 v0) e JSVal.vNull v0 rfl hV0
            (fun hb => handlerKind_boolean (by rw [make_eq] at hb; exact hb))
        rw [phase2_cons_step (addStep_untracked_create h1 h2 hupd) rest]
        dsimp only
        simp only [List.singleton_append]
        have hw1 : WFHandlers e' (hs ++ [(k0, makeAttributeHandler e k0 v0)]) := by
          refine ⟨nodup_keys_append_single _ hw.1 h1, ?_⟩
          intro q hq
          rcases List.mem_append.mp hq with hq | hq
          · exact WFHandler_congr hsh (hw.2 q hq)
          · have : q = (k0, makeAttributeHandler e k0 v0) := List.mem_singleton.mp hq
            rw [this]
            exact WFHandler_congr hsh hnew
        obtain ⟨ih1, ih2, ⟨Mp, Ms, hMM, hok, herr, hMp⟩, ih4, ih5, ih6⟩ :=
          ih (hs ++ [(k0, makeAttributeHandler e k0 v0)]) (some JSVal.vNull) e' hNr hVr hw1
        refine ⟨ih1, sameShape_trans hsh ih2,
          ⟨(k0, v0) :: Mp, Ms, by simp [hMM], hok, herr, ?_⟩, ?_, ?_, ?_⟩
        · intro q hq
          rcases List.mem_cons.mp hq with hq | hq
          · subst hq
            refine ⟨fun _ => ⟨makeAttributeHandler e k0 v0, ?_, by rw [make_eq]⟩,
              fun hnull => absurd hnull h2⟩
            rw [phase2_frame rest _ _ _ _ hrk0]
            exact alookup_append_single_self _ h1
          · exact hMp q hq
        · intro c hc
          rcases List.mem_cons.mp hc with hc | hc
          · rw [hc]
            exact ⟨v0, alookup_cons_self _ _ _, fun _ => ⟨h2, rfl⟩⟩
          · obtain ⟨v', hv', himp⟩ := ih4 c hc
            have hcne : c.1 ≠ k0 := lookup_some_ne hv' hrk0
            refine ⟨v', by rw [alookup_cons_ne _ _ hcne]; exact hv', ?_⟩
            intro hnone
            exact himp (by rw [alookup_append_single_ne _ _ hcne]; exact hnone)
        · intro k hk
          rcases List.mem_cons.mp hk with hk | hk
          · rw [hk]
            exact h1
          · exact alookup_append_none (ih5 k hk)
        · simp only [List.map_cons]
          exact List.Sublist.cons₂ k0 ih6
    | some hd =>
      have hwk : WFHandler e k0 hd := hw.2 (k0, hd) (alookup_mem h1)
      by_cases h2 : hd.value = v0
      · -- tracked key with unchanged value: skipped
        rw [phase2_cons_step (addStep_tracked_skip h1 h2) rest]
        dsimp only
        simp only [List.nil_append]
        obtain ⟨ih1, ih2, ⟨Mp, Ms, hMM, hok, herr, hMp⟩, ih4, ih5, ih6⟩ :=
          ih hs (some hd.value) e hNr hVr hw
        refine ⟨ih1, ih2, ⟨(k0, v0) :: Mp, Ms, by simp [hMM], hok, herr, ?_⟩, ?_, ih5, ?_⟩
        · intro q hq
          rcases List.mem_cons.mp hq with hq | hq
          · subst hq
            refine ⟨fun _ => ⟨hd, ?_, h2⟩, fun hnull => ?_⟩
            · rw [phase2_frame rest _ _ _ _ hrk0]
              exact h1
            · exact absurd (h2.trans hnull) (ne_null_of_isString hwk.2.2)
          · exact hMp q hq
        · intro c hc
          obtain ⟨v', hv', himp⟩ := ih4 c hc
          have hcne : c.1 ≠ k0 := lookup_some_ne hv' hrk0
          exact ⟨v', by rw [alookup_cons_ne _ _ hcne]; exact hv', himp⟩
        · simp only [List.map_cons]
          exact ih6.trans (List.sublist_cons_self _ _)
      · -- tracked key with changed value
        obtain ⟨e', ms, hupd, hsh⟩ :=
          update_ok_shape { hd with value := v0 } e hd.value v0
            (isStringOrNull_of_isString hwk.2.2) hV0
            (fun hb => handlerKind_boolean (hwk.1.symm.trans hb))
        rw [phase2_cons_step (addStep_tracked_diff h1 h2 hupd) rest]
        dsimp only
        simp only [List.singleton_append]
        by_cases h4 : v0 = JSVal.vNull
        · -- removal via explicit null: entry deleted
          subst h4
          rw [if_pos rfl, aremove_aset]
          have hw1 : WFHandlers e' (aremove hs k0) := by
            refine ⟨(keys_aremove_sublist hs k0).nodup hw.1, ?_⟩
            intro q hq
            exact WFHandler_congr hsh (hw.2 q (mem_aremove hq))
          obtain ⟨ih1, ih2, ⟨Mp, Ms, hMM, hok, herr, hMp⟩, ih4, ih5, ih6⟩ :=
            ih (aremove hs k0) (some hd.value) e' hNr hVr hw1
          refine ⟨ih1, sameShape_trans hsh ih2,
            ⟨(k0, JSVal.vNull) :: Mp, Ms, by simp [hMM], hok, herr, ?_⟩, ?_, ?_, ?_⟩
          · intro q hq
            rcases List.mem_cons.mp hq with hq | hq
            · subst hq
              refine ⟨fun hne => absurd rfl hne, fun _ => ?_⟩
              rw [phase2_frame rest _ _ _ _ hrk0]
              exact alookup_aremove_self _ _
            · exact hMp q hq
          · intro c hc
            rcases List.mem_cons.mp hc with hc | hc
            · rw [hc]
              refine ⟨JSVal.vNull, alookup_cons_self _ _ _, fun hnone => ?_⟩
              rw [h1] at hnone
              exact Option.noConfusion hnone
            · obtain ⟨v', hv', himp⟩ := ih4 c hc
              have hcne : c.1 ≠ k0 := lookup_some_ne hv' hrk0
              refine ⟨v', by rw [alookup_cons_ne _ _ hcne]; exact hv', ?_⟩
              intro hnone
              exact himp (by rw [alookup_aremove_ne _ hcne]; exact hnone)
          · intro k hk
            have h5 := ih5 k hk
            have hkne : k ≠ k0 := by
              have hkmem : k ∈ rest.map Prod.fst := List.Sublist.subset ih6 hk
              intro hEq
              subst hEq
              exact hk0r hkmem
            rw [alookup_aremove_ne _ hkne] at h5
            exact h5
          · simp only [List.map_cons]
            exact ih6.trans (List.sublist_cons_self _ _)
        · -- overwrite in place
          rw [if_neg h4]
          have hw1 : WFHandlers e' (aset hs k0 { hd with value := v0 }) := by
            refine ⟨?_, ?_⟩
            · rw [keys_aset_of_some _ h1]
              exact hw.1
            · intro q hq
              rcases mem_aset hq with hq | hq
              · rw [hq]
                refine WFHandler_congr hsh ⟨hwk.1, hwk.2.1, isString_of_ne_null hV0 h4⟩
              · exact WFHandler_congr hsh (hw.2 q hq)
          obtain ⟨ih1, ih2, ⟨Mp, Ms, hMM, hok, herr, hMp⟩, ih4, ih5, ih6⟩ :=
            ih (aset hs k0 { hd with value := v0 }) (some hd.value) e' hNr hVr hw1
          refine ⟨ih1, sameShape_trans hsh ih2,
            ⟨(k0, v0) :: Mp, Ms, by simp [hMM], hok, herr, ?_⟩, ?_, ?_, ?_⟩
          · intro q hq
            rcases List.mem_cons.mp hq with hq | hq
            · subst hq
              refine ⟨fun _ => ⟨{ hd with value := v0 }, ?_, rfl⟩,
                fun hnull => absurd hnull h4⟩
              rw [phase2_frame rest _ _ _ _ hrk0]
              exact alookup_aset_self _ _ _
            · exact hMp q hq
          · intro c hc
            rcases List.mem_cons.mp hc with hc | hc
            · rw [hc]
              refine ⟨v0, alookup_cons_self _ _ _, fun hnone => ?_⟩
              rw [h1] at hnone
              exact Option.noConfusion hnone
            · obtain ⟨v', hv', himp⟩ := ih4 c hc
              have hcne : c.1 ≠ k0 := lookup_some_ne hv' hrk0
              refine ⟨v', by rw [alookup_cons_ne _ _ hcne]; exact hv', ?_⟩
              intro hnone
              exact himp (by rw [alookup_aset_ne _ _ hcne]; exact hnone)
          · intro k hk
            have h5 := ih5 k hk
            by_cases hkne : k = k0
            · subst hkne
              rw [alookup_aset_self] at h5
              exact Option.noConfusion h5
            · rw [alookup_aset_ne _ _ hkne] at h5
              exact h5
          · simp only [List.map_cons]
            exact ih6.trans (List.sublist_cons_self _ _)

/-- Running the addition phase over a map whose processed prefix is
already faithfully tracked (non-null keys tracked with equal remembered
values, null keys untracked), with a register that never holds `null`,
performs no mutation, no invocation and no construction, and leaves the
table and element untouched (it either completes, or throws the
`handler.value` TypeError at the first null-valued key). -/
theorem phase2_noop :
    ∀ (Mp Ms M : AttrMap) (hs : Handlers) (reg : Option JSVal) (e : Elem),
      M = Mp ++ Ms →
      (∀ p ∈ Mp,
        (p.2 ≠ JSVal.vNull → ∃ hd, alookup hs p.1 = some hd ∧ hd.value = p.2) ∧
        (p.2 = JSVal.vNull → alookup hs p.1 = none)) →
      (Ms = [] ∨ ∃ k0 rest2, Ms = (k0, JSVal.vNull) :: rest2 ∧ alookup hs k0 = none) →
      reg ≠ some JSVal.vNull →
      (updateAddPhase hs reg M e).handlers = hs ∧
      (updateAddPhase hs reg M e).elem = e ∧
      (updateAddPhase hs reg M e).muts = [] ∧
      (updateAddPhase hs reg M e).calls = [] ∧
      (updateAddPhase hs reg M e).ctors = [] := by
  intro Mp
  induction Mp with
  | nil =>
    intro Ms M hs reg e hM hMp hMs hreg
    rcases hMs with rfl | ⟨k0, rest2, rfl, hk0⟩
    · subst hM
      exact ⟨rfl, rfl, rfl, rfl, rfl⟩
    · rw [List.nil_append] at hM
      subst hM
      rw [phase2_cons_step (addStep_untracked_null_err hk0 hreg) rest2]
      exact ⟨rfl, rfl, rfl, rfl, rfl⟩
  | cons q Mp' ih =>
    obtain ⟨k0, v0⟩ := q
    intro Ms M hs reg e hM hMp hMs hreg
    subst hM
    have hq := hMp (k0, v0) (List.mem_cons_self _ _)
    simp only [List.cons_append]
    by_cases h2 : v0 = JSVal.vNull
    · subst h2
      have hnone : alookup hs k0 = none := hq.2 rfl
      rw [phase2_cons_step (addStep_untracked_null_err hnone hreg) (Mp' ++ Ms)]
      exact ⟨rfl, rfl, rfl, rfl, rfl⟩
    · obtain ⟨hd, hlk, hval⟩ := hq.1 h2
      rw [phase2_cons_step (addStep_tracked_skip hlk hval) (Mp' ++ Ms)]
      dsimp only
      simp only [List.nil_append]
      have hregne : (some hd.value : Option JSVal) ≠ some JSVal.vNull := by
        intro hEq
        injection hEq with hEq
        exact h2 (hval.symm.trans hEq)
      exact ih Ms (Mp' ++ Ms) hs (some hd.value) e rfl
        (fun p hp => hMp p (List.mem_cons_of_mem _ hp)) hMs hregne

/-- Unfold `ElementAttributesUpdater.update` when the removal phase
succeeds. -/
theorem update_eq_of_phase1 {u : ElementAttributesUpdater} {e : Elem} {M : AttrMap}
    (h : (updateRemovePhase M u.handlers e).err = none) :
    u.update e M =
      ⟨(updateAddPhase (updateRemovePhase M u.handlers e).handlers none M
          (updateRemovePhase M u.handlers e).elem).handlers,
       (updateAddPhase (updateRemovePhase M u.handlers e).handlers none M
          (updateRemovePhase M u.handlers e).elem).elem,
       (updateRemovePhase M u.handlers e).muts ++
         (updateAddPhase (updateRemovePhase M u.handlers e).handlers none M
            (updateRemovePhase M u.handlers e).elem).muts,
       (updateRemovePhase M u.handlers e).calls ++
         (updateAddPhase (updateRemovePhase M u.handlers e).handlers none M
            (updateRemovePhase M u.handlers e).elem).calls,
       (updateAddPhase (updateRemovePhase M u.handlers e).handlers none M
          (updateRemovePhase M u.handlers e).elem).ctors,
       (updateAddPhase (updateRemovePhase M u.handlers e).handlers none M
          (updateRemovePhase M u.handlers e).elem).err⟩ := by
  unfold ElementAttributesUpdater.update
  dsimp only
  rw [h]

theorem filter_keysContain_nil (hs : Handlers) :
    hs.filter (fun p => keysContain [] p.1) = [] := by
  induction hs with
  | nil => rfl
  | cons p rest ih => simp [List.filter_cons, keysContain_nil, ih]

theorem filter_not_keysContain_nil (hs : Handlers) :
    hs.filter (fun p => !keysContain [] p.1) = hs := by
  induction hs with
  | nil => rfl
  | cons p rest ih => simp [List.filter_cons, keysContain_nil, ih]

theorem phase2_nil (hs : Handlers) (reg : Option JSVal) (e : Elem) :
    updateAddPhase hs reg [] e = ⟨hs, e, [], [], [], none⟩ := rfl

theorem alookup_filter_none {α : Type} {l : List (String × α)} {k : String}
    (q : String × α → Bool) (h : alookup l k = none) : alookup (l.filter q) k = none := by
  rw [alookup_eq_none_iff] at h ⊢
  intro hmem
  obtain ⟨p, hp, hpe⟩ := List.mem_map.mp hmem
  exact h (List.mem_map.mpr ⟨p, List.mem_of_mem_filter hp, hpe⟩)

-- ---------------------------------------------------------------------
-- claim theorems
-- ---------------------------------------------------------------------

/-- Claim C1: with remembered class value "a", live token set {"a","b"}
("b" added externally), updating to class "a c" yields live token set
{"a","b","c"} — "b" preserved, "c" appended exactly once at the end, "a"
untouched — in one setter call, and the remembered value becomes "a c". -/
theorem C1_token_set_preservation :
    c1res.err = none ∧
    c1res.elem.classTokens = ["a", "b", "c"] ∧
    c1res.elem.className = "a b c" ∧
    c1res.muts = [Mut.setClassNameProp "a b c"] ∧
    c1res.handlers = [("class", ⟨HandlerKind.cls, "class", JSVal.vStr "a c"⟩)] := by
  decide

/-- Claim C2: with tracked class value "a b", `update({class: "b"})`
removes exactly the token "a" from the live class string — whatever
external tokens the live string `cur` holds — leaving every other token
(including "b" and all externally added ones) in place, and remembers
"b". -/
theorem C2_token_set_removal (cur : String) :
    (c2res cur).err = none ∧
    (c2res cur).elem.className =
      String.intercalate " " (_arrayWithout (_arrayCompact (splitOnSpace cur)) "a") ∧
    (c2res cur).calls = [("class", JSVal.vStr "a b", JSVal.vStr "b")] ∧
    (c2res cur).handlers = [("class", ⟨HandlerKind.cls, "class", JSVal.vStr "b"⟩)] :=
  ⟨rfl, rfl, rfl, rfl⟩

/-- Claim C4: on a fresh updater and plain element,
`update({id: "a", class: "foo", disabled: null})` completes without
throwing, sets `id="a"` and class token set {"foo"}, leaves no "disabled"
attribute, and performs exactly two external mutation calls and two
handler invocations (id and class) — none for "disabled"; in general, a
null desired value for a never-tracked name never produces a removal call
or handler invocation for that name. -/
theorem C4_initial_update_scenario :
    (c4res.err = none ∧
     alookup c4res.elem.attrs "id" = some "a" ∧
     c4res.elem.classTokens = ["foo"] ∧
     alookup c4res.elem.attrs "disabled" = none ∧
     c4res.muts = [Mut.setAttr "id" "a", Mut.setClassNameProp "foo"] ∧
     c4res.calls = [("id", JSVal.vNull, JSVal.vStr "a"),
       ("class", JSVal.vNull, JSVal.vStr "foo")] ∧
     c4res.ctors = ["id", "class"]) ∧
    (∀ (u : ElementAttributesUpdater) (e : Elem) (M : AttrMap) (k : String),
      WFHandlers e u.handlers → (M.map Prod.fst).Nodup →
      (∀ p ∈ M, p.2.isStringOrNull = true) →
      alookup M k = some JSVal.vNull → alookup u.handlers k = none →
      ∀ c ∈ (u.update e M).calls, c.1 ≠ k) := by
  constructor
  · decide
  · intro u e M k hw hN hV hMk huk c hc
    obtain ⟨p1err, p1h, p1c, p1sh, p1wf⟩ := phase1_char M u.handlers e hw
    rw [update_eq_of_phase1 p1err] at hc
    obtain ⟨q1, q2, hdecomp, q4, q5, q6⟩ :=
      phase2_char M (updateRemovePhase M u.handlers e).handlers none
        (updateRemovePhase M u.handlers e).elem hN hV p1wf
    intro hck
    subst hck
    rcases List.mem_append.mp hc with hc | hc
    · rw [p1c] at hc
      obtain ⟨p, hp, hpe⟩ := List.mem_map.mp hc
      have hpm : p ∈ u.handlers := List.mem_of_mem_filter hp
      have hne := alookup_ne_none_of_mem hpm
      rw [← hpe] at huk
      exact hne huk
    · obtain ⟨v', hv', himp⟩ := q4 c hc
      rw [hMk] at hv'
      injection hv' with hv'
      have hfnone : alookup (updateRemovePhase M u.handlers e).handlers c.1 = none := by
        rw [p1h]
        exact alookup_filter_none _ huk
      exact (himp hfnone).1 hv'.symm

/-- Witness instantiating C4's general no-call clause at the concrete
scenario. -/
theorem C4_initial_update_scenario_witness :
    ("id", JSVal.vNull, JSVal.vStr "a").1 ≠ "disabled" :=
  C4_initial_update_scenario.2 ⟨[]⟩ (divElem [])
    [("id", JSVal.vStr "a"), ("class", JSVal.vStr "foo"), ("disabled", JSVal.vNull)]
    "disabled" (by decide) (by decide) (by decide) (by decide) (by decide)
    ("id", JSVal.vNull, JSVal.vStr "a") (by decide)

/-- Claim C5 (counterexample): after `update({value:"x"})` on a focused
control (correctly suppressed) and the control losing focus, the next
`update({value:"x"})` does NOT set the live value property — the
remembered value already equals "x", so the handler is skipped: the final
live value is "" rather than "x", refuting the claim's second half. -/
theorem C5_focus_suppression_counterexample :
    c5r1.elem.value = "" ∧ c5r1.muts = [] ∧
    c5e1.focused = false ∧
    c5r2.elem.value = "" ∧ ¬c5r2.elem.value = "x" ∧ c5r2.muts = [] ∧ c5r2.calls = [] := by
  decide

/-- Claim C5 (amended): a focused control's `update({value:"x"})` leaves
the live value untouched but records "x" as the remembered value; once
unfocused, a repeated `update({value:"x"})` is skipped entirely (remembered
value strictly equals the new value) and still does not set the live
value; only an update with a different value ("y") writes the live value
property. -/
theorem C5_focus_suppression_amended :
    c5r1.elem.value = "" ∧ c5r1.muts = [] ∧
    alookup c5r1.handlers "value" =
      some ⟨HandlerKind.valueRef, "value", JSVal.vStr "x"⟩ ∧
    c5r2.elem.value = "" ∧ c5r2.muts = [] ∧ c5r2.calls = [] ∧
    c5r3.elem.value = "y" ∧ c5r3.muts = [Mut.setValueProp "y"] := by
  decide

/-- Claim C7 (counterexample): a desired value that is neither a string
nor null (a plain object) is NOT rejected: `update` completes without an
error and silently applies the stringified value "[object Object]" to the
attribute. -/
theorem C7_invalid_input_counterexample :
    (c7res 0).err = none ∧
    alookup (c7res 0).elem.attrs "data-x" = some "[object Object]" ∧
    (c7res 0).muts = [Mut.setAttr "data-x" "[object Object]"] := by
  decide

/-- Claim C7 (amended): the reconciler performs no input validation — for
every object value (any identity `i`) supplied for an ordinary attribute,
reconciliation succeeds and stores the DOM stringification
"[object Object]" instead of rejecting the input. -/
theorem C7_invalid_input_amended (i : Nat) :
    (c7res i).err = none ∧
    alookup (c7res i).elem.attrs "data-x" = some "[object Object]" ∧
    (c7res i).muts = [Mut.setAttr "data-x" "[object Object]"] :=
  ⟨rfl, rfl, rfl⟩

/-- Claim C9 (counterexample): with `a` and `b` both tracked,
`update({b:"3", a:null})` performs the addition mutation for `b` BEFORE
the removal mutation for the explicitly-null `a` — removals for
explicitly-null keys are interleaved in map iteration order, not applied
first. -/
theorem C9_ordering_counterexample :
    c9res.err = none ∧
    c9res.muts = [Mut.setAttr "b" "3", Mut.removeAttr "a"] ∧
    removalsFirst c9res.muts = false := by
  decide

/-- Claim C8: a token-set handler whose `getCurrentValue`/`setValue`
accessors are not both defined throws "Missing methods in subclass of
BaseClassHandler" on its very first update, for any element and values
(no mutation is attempted — no element state is returned); the concrete
`ClassHandler` and `SVGClassHandler` strategies, which define both
accessors, never throw on string-or-null values. -/
theorem C8_configuration_error :
    (∀ (getV : Option (Elem → String)) (setV : Option (String → Elem → Elem × Mut))
        (e : Elem) (oldValue value : JSVal), getV = none ∨ setV = none →
        BaseClassHandler.update getV setV e oldValue value =
          Except.error "Missing methods in subclass of BaseClassHandler") ∧
    (∀ (e : Elem) (oldValue value : JSVal),
        oldValue.isStringOrNull = true → value.isStringOrNull = true →
        (∃ e' ms, BaseClassHandler.update (some ClassHandler.getCurrentValue)
            (some ClassHandler.setValue) e oldValue value = Except.ok (e', ms)) ∧
        (∃ e' ms, BaseClassHandler.update (some SVGClassHandler.getCurrentValue)
            (some SVGClassHandler.setValue) e oldValue value = Except.ok (e', ms))) := by
  constructor
  · rintro getV setV e ov v (rfl | rfl)
    · cases setV <;> rfl
    · cases getV <;> rfl
  · intro e ov v hov hv
    constructor
    · obtain ⟨e', ms, hok, _⟩ :=
        update_ok_shape ⟨HandlerKind.cls, "class", JSVal.vNull⟩ e ov v hov hv
          (fun hb => absurd hb (by decide))
      exact ⟨e', ms, hok⟩
    · obtain ⟨e', ms, hok, _⟩ :=
        update_ok_shape ⟨HandlerKind.svgCls, "class", JSVal.vNull⟩ e ov v hov hv
          (fun hb => absurd hb (by decide))
      exact ⟨e', ms, hok⟩

/-- Witness for C8 at a concrete element and values. -/
theorem C8_configuration_error_witness :
    BaseClassHandler.update none none (divElem []) JSVal.vNull (JSVal.vStr "x") =
      Except.error "Missing methods in subclass of BaseClassHandler" ∧
    ∃ e' ms, BaseClassHandler.update (some ClassHandler.getCurrentValue)
        (some ClassHandler.setValue) (divElem []) JSVal.vNull (JSVal.vStr "x") =
      Except.ok (e', ms) :=
  ⟨C8_configuration_error.1 none none (divElem []) JSVal.vNull (JSVal.vStr "x") (Or.inl rfl),
   (C8_configuration_error.2 (divElem []) JSVal.vNull (JSVal.vStr "x") (by decide)
      (by decide)).1⟩

/-- Claim C9 (amended): in every `update(M)` call on a well-formed table,
the handler invocations split into a first block — the removals for
tracked names ABSENT from `M`, each invoked with new value `null` — and a
second block of invocations all keyed by `M`; removals for explicitly-null
keys belong to the second block, in map iteration order. -/
theorem C9_ordering_amended (u : ElementAttributesUpdater) (e : Elem) (M : AttrMap)
    (hw : WFHandlers e u.handlers) :
    ∃ c1 c2, (u.update e M).calls = c1 ++ c2 ∧
      (∀ x ∈ c1, x.2.2 = JSVal.vNull ∧ keysContain M x.1 = false) ∧
      (∀ x ∈ c2, keysContain M x.1 = true) := by
  obtain ⟨p1err, p1h, p1c, p1sh, p1wf⟩ := phase1_char M u.handlers e hw
  rw [update_eq_of_phase1 p1err]
  refine ⟨(updateRemovePhase M u.handlers e).calls,
    (updateAddPhase (updateRemovePhase M u.handlers e).handlers none M
      (updateRemovePhase M u.handlers e).elem).calls, rfl, ?_, ?_⟩
  · intro x hx
    rw [p1c] at hx
    obtain ⟨p, hp, hpe⟩ := List.mem_map.mp hx
    constructor
    · rw [← hpe]
    · rw [← hpe]
      have hkc := List.of_mem_filter hp
      simpa using hkc
  · intro x hx
    exact phase2_calls_keys M _ _ _ x hx

/-- Witness for C9's amended theorem at a concrete run. -/
theorem C9_ordering_amended_witness :
    ∃ c1 c2,
      ((⟨[]⟩ : ElementAttributesUpdater).update (divElem []) [("a", JSVal.vStr "1")]).calls =
        c1 ++ c2 ∧
      (∀ x ∈ c1, x.2.2 = JSVal.vNull ∧ keysContain [("a", JSVal.vStr "1")] x.1 = false) ∧
      (∀ x ∈ c2, keysContain [("a", JSVal.vStr "1")] x.1 = true) :=
  C9_ordering_amended ⟨[]⟩ (divElem []) [("a", JSVal.vStr "1")] (by decide)

/-- Claim C3: `update(M); update(M)` on the same updater (well-formed
table, distinct keys, string-or-null values) leaves the element in the
same observable state as a single `update(M)`: the second invocation
performs zero external mutation calls and invokes no handler (whether it
completes or stops at the stale-register TypeError, it changes nothing). -/
theorem C3_idempotence (u : ElementAttributesUpdater) (e : Elem) (M : AttrMap)
    (hw : WFHandlers e u.handlers)
    (hN : (M.map Prod.fst).Nodup)
    (hV : ∀ p ∈ M, p.2.isStringOrNull = true) :
    ((⟨(u.update e M).handlers⟩ : ElementAttributesUpdater).update (u.update e M).elem M).elem =
      (u.update e M).elem ∧
    ((⟨(u.update e M).handlers⟩ : ElementAttributesUpdater).update (u.update e M).elem M).muts =
      [] ∧
    ((⟨(u.update e M).handlers⟩ : ElementAttributesUpdater).update (u.update e M).elem M).calls =
      [] ∧
    ((⟨(u.update e M).handlers⟩ : ElementAttributesUpdater).update
        (u.update e M).elem M).handlers = (u.update e M).handlers := by
  obtain ⟨p1err, p1h, p1c, p1sh, p1wf⟩ := phase1_char M u.handlers e hw
  rw [update_eq_of_phase1 p1err]
  dsimp only
  obtain ⟨q1, q2, ⟨Mp, Ms, hMM, hok, herr, hMp⟩, q4, q5, q6⟩ :=
    phase2_char M (updateRemovePhase M u.handlers e).handlers none
      (updateRemovePhase M u.handlers e).elem hN hV p1wf
  have hkeys : ∀ p ∈ (updateAddPhase (updateRemovePhase M u.handlers e).handlers none M
      (updateRemovePhase M u.handlers e).elem).handlers, keysContain M p.1 = true := by
    intro p hp
    by_contra hfalse
    have hMn : alookup M p.1 = none :=
      alookup_eq_none_iff.mpr (fun hmem => hfalse (keysContain_iff.mpr hmem))
    have hfr := phase2_frame M (updateRemovePhase M u.handlers e).handlers none
      (updateRemovePhase M u.handlers e).elem p.1 hMn
    have hne := alookup_ne_none_of_mem hp
    cases hl : alookup (updateRemovePhase M u.handlers e).handlers p.1 with
    | none => exact hne (hfr.trans hl)
    | some hd =>
      have hmem2 := alookup_mem hl
      rw [p1h] at hmem2
      exact hfalse (List.mem_filter.mp hmem2).2
  have hp1b := phase1_noop M
    (updateAddPhase (updateRemovePhase M u.handlers e).handlers none M
      (updateRemovePhase M u.handlers e).elem).handlers
    (updateAddPhase (updateRemovePhase M u.handlers e).handlers none M
      (updateRemovePhase M u.handlers e).elem).elem
    hkeys
  rw [update_eq_of_phase1 (by rw [hp1b])]
  rw [hp1b]
  dsimp only
  have hMs : Ms = [] ∨ ∃ k0 rest2, Ms = (k0, JSVal.vNull) :: rest2 ∧
      alookup (updateAddPhase (updateRemovePhase M u.handlers e).handlers none M
        (updateRemovePhase M u.handlers e).elem).handlers k0 = none := by
    cases hE : (updateAddPhase (updateRemovePhase M u.handlers e).handlers none M
        (updateRemovePhase M u.handlers e).elem).err with
    | none => exact Or.inl (hok hE)
    | some msg =>
      obtain ⟨k0, rest2, hms, hlk⟩ := herr msg hE
      exact Or.inr ⟨k0, rest2, hms, hlk⟩
  obtain ⟨n1, n2, n3, n4, n5⟩ :=
    phase2_noop Mp Ms M
      (updateAddPhase (updateRemovePhase M u.handlers e).handlers none M
        (updateRemovePhase M u.handlers e).elem).handlers none
      (updateAddPhase (updateRemovePhase M u.handlers e).handlers none M
        (updateRemovePhase M u.handlers e).elem).elem
      hMM hMp hMs (fun h => Option.noConfusion h)
  refine ⟨n2, ?_, ?_, n1⟩
  · rw [n3]
    rfl
  · rw [n4]
    rfl

/-- Witness for C3 at a concrete run. -/
theorem C3_idempotence_witness :
    ((⟨((⟨[]⟩ : ElementAttributesUpdater).update (divElem [])
        [("id", JSVal.vStr "a")]).handlers⟩ : ElementAttributesUpdater).update
      ((⟨[]⟩ : ElementAttributesUpdater).update (divElem [])
        [("id", JSVal.vStr "a")]).elem [("id", JSVal.vStr "a")]).elem =
      ((⟨[]⟩ : ElementAttributesUpdater).update (divElem [])
        [("id", JSVal.vStr "a")]).elem ∧
    ((⟨((⟨[]⟩ : ElementAttributesUpdater).update (divElem [])
        [("id", JSVal.vStr "a")]).handlers⟩ : ElementAttributesUpdater).update
      ((⟨[]⟩ : ElementAttributesUpdater).update (divElem [])
        [("id", JSVal.vStr "a")]).elem [("id", JSVal.vStr "a")]).muts = [] ∧
    ((⟨((⟨[]⟩ : ElementAttributesUpdater).update (divElem [])
        [("id", JSVal.vStr "a")]).handlers⟩ : ElementAttributesUpdater).update
      ((⟨[]⟩ : ElementAttributesUpdater).update (divElem [])
        [("id", JSVal.vStr "a")]).elem [("id", JSVal.vStr "a")]).calls = [] ∧
    ((⟨((⟨[]⟩ : ElementAttributesUpdater).update (divElem [])
        [("id", JSVal.vStr "a")]).handlers⟩ : ElementAttributesUpdater).update
      ((⟨[]⟩ : ElementAttributesUpdater).update (divElem [])
        [("id", JSVal.vStr "a")]).elem [("id", JSVal.vStr "a")]).handlers =
      ((⟨[]⟩ : ElementAttributesUpdater).update (divElem [])
        [("id", JSVal.vStr "a")]).handlers :=
  C3_idempotence ⟨[]⟩ (divElem []) [("id", JSVal.vStr "a")] (by decide) (by decide) (by decide)

/-- `update({})` on a well-formed table removes everything: the table
empties, each handler is invoked exactly once with `(remembered value,
null)` in table order, every plain attribute the table tracked is gone
from the element, and so is every xlink-namespaced attribute it tracked. -/
theorem update_empty_char (hs : Handlers) (e2 : Elem) (hwf : WFHandlers e2 hs) :
    ((⟨hs⟩ : ElementAttributesUpdater).update e2 []).handlers = [] ∧
    ((⟨hs⟩ : ElementAttributesUpdater).update e2 []).err = none ∧
    ((⟨hs⟩ : ElementAttributesUpdater).update e2 []).calls =
      hs.map (fun p => (p.1, p.2.value, JSVal.vNull)) ∧
    (∀ p ∈ hs, p.2.kind = HandlerKind.plain →
      alookup ((⟨hs⟩ : ElementAttributesUpdater).update e2 []).elem.attrs p.1 = none) ∧
    (∀ p ∈ hs, p.2.kind = HandlerKind.xlink →
      alookup ((⟨hs⟩ : ElementAttributesUpdater).update e2 []).elem.nsAttrs p.2.name
        = none) := by
  obtain ⟨r1err, r1h, r1c, r1sh, r1wf⟩ := phase1_char [] hs e2 hwf
  have hAttrs := (phase1_empty_attrs hs e2 hwf).1
  have hNs := (phase1_empty_nsAttrs hs e2 hwf).1
  rw [update_eq_of_phase1 r1err]
  dsimp only
  rw [phase2_nil]
  dsimp only
  refine ⟨?_, rfl, ?_, ?_, ?_⟩
  · rw [r1h, filter_keysContain_nil]
  · rw [r1c, filter_not_keysContain_nil, List.append_nil]
  · intro p hp hk
    exact hAttrs p hp hk
  · intro p hp hk
    exact hNs p hp hk

/-- Claim C6, counterexample: the claim says that after `update(M)`
followed by `update({})` the element has no attributes remaining that were
introduced by the reconciler.  With `M = {class: "foo"}` on a fresh plain
element, both calls complete, the reconciler tracks nothing afterwards —
yet the `class` attribute it introduced is still present on the element
(with value `""`): the token-set removal writes `element.className = ""`
rather than removing the attribute. -/
theorem C6_removal_completeness_counterexample :
    c6r1.err = none ∧ c6r2.err = none ∧
    alookup c6r1.elem.attrs "class" = some "foo" ∧
    c6r2.handlers = [] ∧
    alookup c6r2.elem.attrs "class" = some "" := by decide

/-- Claim C6 (amended): for every non-empty map `M` (distinct keys,
string-or-null values) and well-formed starting state, `update(M)`
followed by `update({})` leaves the reconciler tracking nothing: every
handler that survived `update(M)` has its removal behaviour invoked once
with its remembered value and `null`, its entry is discarded, every plain
attribute it tracked is absent from the element, and so is every
xlink-namespaced attribute it tracked; a `class` attribute, however, may
survive with an empty value (its removal writes the empty class string). -/
theorem C6_removal_completeness_amended (u : ElementAttributesUpdater) (e : Elem) (M : AttrMap)
    (hw : WFHandlers e u.handlers) (hMne : M ≠ [])
    (hN : (M.map Prod.fst).Nodup)
    (hV : ∀ p ∈ M, p.2.isStringOrNull = true) :
    ((⟨(u.update e M).handlers⟩ : ElementAttributesUpdater).update
        (u.update e M).elem []).handlers = [] ∧
    ((⟨(u.update e M).handlers⟩ : ElementAttributesUpdater).update
        (u.update e M).elem []).err = none ∧
    ((⟨(u.update e M).handlers⟩ : ElementAttributesUpdater).update
        (u.update e M).elem []).calls =
      (u.update e M).handlers.map (fun p => (p.1, p.2.value, JSVal.vNull)) ∧
    (∀ p ∈ (u.update e M).handlers, p.2.kind = HandlerKind.plain →
      alookup ((⟨(u.update e M).handlers⟩ : ElementAttributesUpdater).update
        (u.update e M).elem []).elem.attrs p.1 = none) ∧
    (∀ p ∈ (u.update e M).handlers, p.2.kind = HandlerKind.xlink →
      alookup ((⟨(u.update e M).handlers⟩ : ElementAttributesUpdater).update
        (u.update e M).elem []).elem.nsAttrs p.2.name = none) := by
  obtain ⟨p1err, p1h, p1c, p1sh, p1wf⟩ := phase1_char M u.handlers e hw
  rw [update_eq_of_phase1 p1err]
  dsimp only
  obtain ⟨q1, q2, hdecomp, q4, q5, q6⟩ :=
    phase2_char M (updateRemovePhase M u.handlers e).handlers none
      (updateRemovePhase M u.handlers e).elem hN hV p1wf
  exact update_empty_char _ _ q1

/-- Witness for the amended C6 at a concrete run tracking one plain and
one xlink-namespaced attribute. -/
theorem C6_removal_completeness_amended_witness :
    ([("id", JSVal.vStr "a"), ("xlink:href", JSVal.vStr "u")] : AttrMap) ≠ [] ∧
    (c6w2.handlers = [] ∧
     c6w2.err = none ∧
     c6w2.calls = c6w1.handlers.map (fun p => (p.1, p.2.value, JSVal.vNull)) ∧
     (∀ p ∈ c6w1.handlers, p.2.kind = HandlerKind.plain →
       alookup c6w2.elem.attrs p.1 = none) ∧
     (∀ p ∈ c6w1.handlers, p.2.kind = HandlerKind.xlink →
       alookup c6w2.elem.nsAttrs p.2.name = none)) :=
  ⟨by decide,
   C6_removal_completeness_amended ⟨[]⟩ (divElem [])
     [("id", JSVal.vStr "a"), ("xlink:href", JSVal.vStr "u")]
     (by decide) (by decide) (by decide) (by decide)⟩

/-- Claim C10: after a non-throwing `update(newAttrs)` (well-formed
table, distinct keys, string-or-null values), the tracked names are
exactly the keys of `newAttrs` with non-null values, each remembered
value equals the corresponding map value, `makeAttributeHandler` ran only
for names untracked at entry (at most once per name), and every
invocation for a name untracked at entry had `oldValue = null`. -/
theorem C10_handler_table_invariant (u : ElementAttributesUpdater) (e : Elem) (M : AttrMap)
    (hw : WFHandlers e u.handlers)
    (hN : (M.map Prod.fst).Nodup)
    (hV : ∀ p ∈ M, p.2.isStringOrNull = true)
    (hok : (u.update e M).err = none) :
    (∀ k, (∃ hd, alookup (u.update e M).handlers k = some hd) ↔
      (∃ v, alookup M k = some v ∧ v ≠ JSVal.vNull)) ∧
    (∀ k hd, alookup (u.update e M).handlers k = some hd →
      alookup M k = some hd.value) ∧
    (∀ k ∈ (u.update e M).ctors, alookup u.handlers k = none) ∧
    (u.update e M).ctors.Nodup ∧
    (∀ c ∈ (u.update e M).calls, alookup u.handlers c.1 = none →
      c.2.1 = JSVal.vNull) := by
  obtain ⟨p1err, p1h, p1c, p1sh, p1wf⟩ := phase1_char M u.handlers e hw
  rw [update_eq_of_phase1 p1err] at hok ⊢
  dsimp only at hok ⊢
  obtain ⟨q1, q2, ⟨Mp, Ms, hMM, hokMs, herr, hMp⟩, q4, q5, q6⟩ :=
    phase2_char M (updateRemovePhase M u.handlers e).handlers none
      (updateRemovePhase M u.handlers e).elem hN hV p1wf
  have hMsnil : Ms = [] := hokMs hok
  subst hMsnil
  rw [List.append_nil] at hMM
  rw [← hMM] at hMp
  have hnone_of_Mnone : ∀ k, alookup M k = none →
      alookup (updateAddPhase (updateRemovePhase M u.handlers e).handlers none M
        (updateRemovePhase M u.handlers e).elem).handlers k = none := by
    intro k hk
    rw [phase2_frame M _ _ _ _ hk, p1h]
    rw [alookup_eq_none_iff]
    intro hmem
    obtain ⟨p, hp, hpe⟩ := List.mem_map.mp hmem
    have hq := (List.mem_filter.mp hp).2
    rw [hpe] at hq
    rw [alookup_eq_none_iff] at hk
    exact hk (keysContain_iff.mp hq)
  refine ⟨?_, ?_, ?_, q6.nodup hN, ?_⟩
  · intro k
    constructor
    · rintro ⟨hd, hl⟩
      cases hMk : alookup M k with
      | none =>
        rw [hnone_of_Mnone k hMk] at hl
        exact Option.noConfusion hl
      | some v =>
        refine ⟨v, rfl, ?_⟩
        intro hvnull
        subst hvnull
        have hforce := (hMp (k, JSVal.vNull) (alookup_mem hMk)).2 rfl
        rw [hforce] at hl
        exact Option.noConfusion hl
    · rintro ⟨v, hlv, hvne⟩
      obtain ⟨hd, hl, _⟩ := (hMp (k, v) (alookup_mem hlv)).1 hvne
      exact ⟨hd, hl⟩
  · intro k hd hl
    cases hMk : alookup M k with
    | none =>
      rw [hnone_of_Mnone k hMk] at hl
      exact Option.noConfusion hl
    | some v =>
      by_cases hv : v = JSVal.vNull
      · subst hv
        have hforce := (hMp (k, JSVal.vNull) (alookup_mem hMk)).2 rfl
        rw [hforce] at hl
        exact Option.noConfusion hl
      · obtain ⟨hd', hl', hval⟩ := (hMp (k, v) (alookup_mem hMk)).1 hv
        rw [hl'] at hl
        injection hl with hl
        exact congrArg some (hl ▸ hval).symm
  · intro k hk
    cases hu : alookup u.handlers k with
    | none => rfl
    | some hd =>
      have hq5 := q5 k hk
      have hkM : k ∈ M.map Prod.fst := List.Sublist.subset q6 hk
      have hkc : keysContain M k = true := keysContain_iff.mpr hkM
      have hmemf : (k, hd) ∈ (updateRemovePhase M u.handlers e).handlers := by
        rw [p1h]
        exact List.mem_filter.mpr ⟨alookup_mem hu, hkc⟩
      exact absurd hq5 (alookup_ne_none_of_mem hmemf)
  · intro c hc huk
    rcases List.mem_append.mp hc with hc | hc
    · rw [p1c] at hc
      obtain ⟨p, hp, hpe⟩ := List.mem_map.mp hc
      have hpm : p ∈ u.handlers := List.mem_of_mem_filter hp
      have hne := alookup_ne_none_of_mem hpm
      rw [← hpe] at huk
      exact absurd huk hne
    · obtain ⟨v', hv', himp⟩ := q4 c hc
      have hfnone : alookup (updateRemovePhase M u.handlers e).handlers c.1 = none := by
        rw [p1h]
        exact alookup_filter_none _ huk
      exact (himp hfnone).2

/-- Witness for C10 at a concrete run. -/
theorem C10_handler_table_invariant_witness :
    (∀ k, (∃ hd, alookup ((⟨[]⟩ : ElementAttributesUpdater).update (divElem [])
        [("id", JSVal.vStr "a")]).handlers k = some hd) ↔
      (∃ v, alookup [("id", JSVal.vStr "a")] k = some v ∧ v ≠ JSVal.vNull)) ∧
    (∀ k hd, alookup ((⟨[]⟩ : ElementAttributesUpdater).update (divElem [])
        [("id", JSVal.vStr "a")]).handlers k = some hd →
      alookup [("id", JSVal.vStr "a")] k = some hd.value) ∧
    (∀ k ∈ ((⟨[]⟩ : ElementAttributesUpdater).update (divElem [])
        [("id", JSVal.vStr "a")]).ctors, alookup ([] : Handlers) k = none) ∧
    ((⟨[]⟩ : ElementAttributesUpdater).update (divElem [])
        [("id", JSVal.vStr "a")]).ctors.Nodup ∧
    (∀ c ∈ ((⟨[]⟩ : ElementAttributesUpdater).update (divElem [])
        [("id", JSVal.vStr "a")]).calls, alookup ([] : Handlers) c.1 = none →
      c.2.1 = JSVal.vNull) :=
  C10_handler_table_invariant ⟨[]⟩ (divElem []) [("id", JSVal.vStr "a")] (by decide)
    (by decide) (by decide) (by decide)

end Blaze
